import Mathlib

/-!
Verification development for the component runtime: a qualification tracker
(`ComponentTracker`) and a component lifecycle registry (`Components`).

The Lua/TypeScript source is shallowly embedded:
* Entities (Roblox `Instance` handles), component constructors, component
  instances, tracker listeners and promise resolvers are identity-compared
  objects; they are modelled as natural-number identities.
* Lua `Map`/`Set` objects are modelled as association lists / duplicate-free
  lists with the same insert/delete/lookup behaviour.
* External collaborators (CollectionService tags, attribute store, instance
  guards) are modelled as explicit data: the world state carries the entity
  attributes, tag assignments and parent links, and guard predicates are
  carried as boolean-valued functions inside the static component registry.
* Thrown errors become an `Except`-style error value, returned alongside the
  registry state so that mutations performed before a throw are observable,
  exactly as they are on the heap after a Lua `error`.
-/

namespace FlameworkComponents

/-- Association-list lookup, first binding wins (models `Map.get`). -/
def lookupA {α β : Type} [DecidableEq α] : List (α × β) → α → Option β
  | [], _ => none
  | (k, v) :: rest, a => if k = a then some v else lookupA rest a

/-- Association-list insert/update (models `Map.set`): replaces the binding
in place when the key is present, appends otherwise. -/
def insertA {α β : Type} [DecidableEq α] : List (α × β) → α → β → List (α × β)
  | [], a, b => [(a, b)]
  | (k, v) :: rest, a, b =>
    if k = a then (a, b) :: rest else (k, v) :: insertA rest a b

/-- Association-list delete (models `Map.delete`). -/
def eraseA {α β : Type} [DecidableEq α] (l : List (α × β)) (a : α) :
    List (α × β) :=
  l.filter (fun p => p.1 ≠ a)

/-- Set insert (models Lua `Set.add`): appends only when absent. -/
def addS {α : Type} [DecidableEq α] (l : List α) (a : α) : List α :=
  if a ∈ l then l else l ++ [a]

theorem lookupA_insertA_self {α β : Type} [DecidableEq α]
    (l : List (α × β)) (a : α) (b : β) :
    lookupA (insertA l a b) a = some b := by
  induction l with
  | nil => simp [insertA, lookupA]
  | cons p rest ih =>
    obtain ⟨k, v⟩ := p
    by_cases hka : k = a
    · simp [insertA, lookupA, hka]
    · simp [insertA, lookupA, hka, ih]

theorem lookupA_insertA_ne {α β : Type} [DecidableEq α]
    (l : List (α × β)) (a a' : α) (b : β) (h : a' ≠ a) :
    lookupA (insertA l a b) a' = lookupA l a' := by
  have hne : ¬ a = a' := fun hc => h hc.symm
  induction l with
  | nil => simp [insertA, lookupA, hne]
  | cons p rest ih =>
    obtain ⟨k, v⟩ := p
    by_cases hka : k = a
    · subst hka
      simp [insertA, lookupA, hne]
    · by_cases hka' : k = a'
      · subst hka'
        simp [insertA, lookupA, hka, h]
      · simp [insertA, lookupA, hka, hka', ih]

theorem lookupA_eraseA_self {α β : Type} [DecidableEq α]
    (l : List (α × β)) (a : α) :
    lookupA (eraseA l a) a = none := by
  induction l with
  | nil => simp [eraseA, lookupA]
  | cons p rest ih =>
    obtain ⟨k, v⟩ := p
    by_cases hka : k = a
    · simpa [eraseA, lookupA, hka] using ih
    · simp only [eraseA, List.filter_cons] at *
      simpa [hka, lookupA] using ih

theorem lookupA_eraseA_ne {α β : Type} [DecidableEq α]
    (l : List (α × β)) (a a' : α) (h : a' ≠ a) :
    lookupA (eraseA l a) a' = lookupA l a' := by
  have hne : ¬ a = a' := fun hc => h hc.symm
  induction l with
  | nil => simp [eraseA, lookupA]
  | cons p rest ih =>
    obtain ⟨k, v⟩ := p
    by_cases hka : k = a
    · subst hka
      have hka' : ¬ k = a' := hne
      simp only [eraseA, List.filter_cons] at *
      simpa [lookupA, hka'] using ih
    · by_cases hka' : k = a'
      · subst hka'
        simp only [eraseA, List.filter_cons] at *
        simp [hka, lookupA, h]
      · simp only [eraseA, List.filter_cons] at *
        simpa [hka, hka', lookupA] using ih

/-!
## Qualification tracker (`ComponentTracker`)

`unmetCriteria` is a Lua `Set<unknown>` whose members are the strings
`"CollectionService tag"` and `"type guard"` plus dependency-tracker object
references; it is modelled by the inductive `Marker` (dependency trackers by
their identity number).  Listeners and cleanup callbacks are identity objects,
modelled as numbers; invoking a listener is recorded as a pair
`(listener, isQualified)` in an invocation list.
-/

/-- One unmet-criteria marker of `ComponentTracker`. -/
inductive Marker : Type
  | tag
  | typeGuard
  | dep (trackerId : Nat)
deriving DecidableEq, Repr

/-- The per-entity `InstanceTracker` record of `ComponentTracker`
(the diagnostic-timeout thread is not modelled; it is advisory output only). -/
structure InstanceTracker : Type where
  isQualified : Bool
  unmetCriteria : List Marker
  listeners : List Nat
  cleanup : List Nat
deriving DecidableEq, Repr

/-- The freshly created tracking state of `getInstanceTracker`. -/
def freshTracker : InstanceTracker :=
  { isQualified := true, unmetCriteria := [], listeners := [], cleanup := [] }

/-- `unmetCriteria.isEmpty()` — the recomputed qualification boolean. -/
def computeQualified (tr : InstanceTracker) : Bool :=
  tr.unmetCriteria.isEmpty

/-- `ComponentTracker.updateListeners`: recompute `isQualified` from the
unmet-criteria set; when the boolean differs from the cached one, store it and
invoke every registered listener with the new value (the timeout-thread
cancellation that follows has no observable effect on tracker state here).
Returns the updated tracker and the listener invocations performed. -/
def updateListeners (tr : InstanceTracker) : InstanceTracker × List (Nat × Bool) :=
  if tr.unmetCriteria.isEmpty ≠ tr.isQualified then
    ({ tr with isQualified := tr.unmetCriteria.isEmpty },
     tr.listeners.map (fun l => (l, tr.unmetCriteria.isEmpty)))
  else
    (tr, [])

/-- `tracker.unmetCriteria.add(m)`. -/
def addMarker (tr : InstanceTracker) (m : Marker) : InstanceTracker :=
  { tr with unmetCriteria := addS tr.unmetCriteria m }

/-- `tracker.unmetCriteria.delete(m)`. -/
def removeMarker (tr : InstanceTracker) (m : Marker) : InstanceTracker :=
  { tr with unmetCriteria := tr.unmetCriteria.erase m }

/-- The four marker mutations performed on a live tracking state:
`setHasTag`, a dependency listener firing with the dependency's new
qualification, and the two debounced polling handlers (`DescendantAdded`
re-running the type guard with result `guardOk`, `DescendantRemoving`
likewise). -/
inductive TrackerMutation : Type
  | mSetHasTag (hasTag : Bool)
  | mDepListener (depId : Nat) (isQualified : Bool)
  | mPollAdded (guardOk : Bool)
  | mPollRemoving (guardOk : Bool)

/-- Applies one mutation exactly as the source does: mutate the marker set,
then `updateListeners`.  The `DescendantAdded` handler acts only when the
guard now passes, the `DescendantRemoving` handler only when it now fails
(otherwise neither the set nor the cached flag is touched). -/
def applyMutation : TrackerMutation → InstanceTracker → InstanceTracker × List (Nat × Bool)
  | .mSetHasTag hasTag, tr =>
    if hasTag then updateListeners (removeMarker tr .tag)
    else updateListeners (addMarker tr .tag)
  | .mDepListener d q, tr =>
    if q then updateListeners (removeMarker tr (.dep d))
    else updateListeners (addMarker tr (.dep d))
  | .mPollAdded guardOk, tr =>
    if guardOk then updateListeners (removeMarker tr .typeGuard) else (tr, [])
  | .mPollRemoving guardOk, tr =>
    if !guardOk then updateListeners (addMarker tr .typeGuard) else (tr, [])

/-- The tracker's static criteria: whether a CollectionService tag and a type
guard are configured, and the declared dependency trackers in order. -/
structure Criteria : Type where
  tag : Bool
  typeGuard : Bool
  deps : List Nat

/-- The external facts `testInstance` consults for one entity: the result of
`CollectionService.HasTag`, of the type guard, and of each dependency
tracker's `checkInstance`. -/
structure TrackerEnv : Type where
  hasTag : Bool
  guardOk : Bool
  depQualified : Nat → Bool

/-- One criteria evaluation step, for recording evaluation order. -/
inductive CheckStep : Type
  | depCheck (trackerId : Nat)
  | guardCheck
  | tagCheck
deriving DecidableEq, Repr

/-- Result of a stateful (tracker-present) `testInstance` run. -/
structure TestOut : Type where
  tracker : InstanceTracker
  invocations : List (Nat × Bool)
  result : Bool
  trace : List CheckStep
deriving Repr

/-- One failing criterion inside the stateful `testInstance`: add the marker,
run `updateListeners`, record the evaluation in the trace. -/
def failStep (acc : TestOut) (m : Marker) (s : CheckStep) : TestOut :=
  { tracker := (updateListeners (addMarker acc.tracker m)).1,
    invocations := acc.invocations ++ (updateListeners (addMarker acc.tracker m)).2,
    result := false,
    trace := acc.trace ++ [s] }

/-- One dependency evaluation inside the stateful `testInstance`. -/
def depStep (env : TrackerEnv) (acc : TestOut) (d : Nat) : TestOut :=
  if env.depQualified d then { acc with trace := acc.trace ++ [.depCheck d] }
  else failStep acc (.dep d) (.depCheck d)

/-- `ComponentTracker.testInstance` with a tracker present (the full
evaluation run on first track): every criterion is evaluated — dependencies
first, in declared order, then the type guard, then the tag — and each
failing criterion adds its marker followed by `updateListeners`.  The trace
records every criterion evaluation in order. -/
def testInstance (c : Criteria) (env : TrackerEnv) (tr : InstanceTracker) : TestOut :=
  let depOut := c.deps.foldl (depStep env)
    { tracker := tr, invocations := [], result := true, trace := [] }
  let guardOut :=
    if c.typeGuard then
      if env.guardOk then { depOut with trace := depOut.trace ++ [.guardCheck] }
      else failStep depOut .typeGuard .guardCheck
    else depOut
  if c.tag then
    if env.hasTag then { guardOut with trace := guardOut.trace ++ [.tagCheck] }
    else failStep guardOut .tag .tagCheck
  else guardOut

/-- Tail of the stateless `testInstance` path after all dependencies and the
type guard passed: the tag criterion. -/
def statelessTagStep (c : Criteria) (env : TrackerEnv) (acc : List CheckStep) :
    Bool × List CheckStep :=
  if c.tag then
    if env.hasTag then (true, acc ++ [.tagCheck])
    else (false, acc ++ [.tagCheck])
  else (true, acc)

/-- Tail of the stateless `testInstance` path after all dependencies passed:
the type guard, then the tag criterion. -/
def statelessGuardStep (c : Criteria) (env : TrackerEnv) (acc : List CheckStep) :
    Bool × List CheckStep :=
  if c.typeGuard then
    if env.guardOk then statelessTagStep c env (acc ++ [.guardCheck])
    else (false, acc ++ [.guardCheck])
  else statelessTagStep c env acc

/-- Dependency loop of the stateless `testInstance` path: each dependency's
`checkInstance` result is consulted in declared order, returning immediately
on the first failure. -/
def statelessDepLoop (c : Criteria) (env : TrackerEnv) :
    List Nat → List CheckStep → Bool × List CheckStep
  | d :: ds, acc =>
    if env.depQualified d then statelessDepLoop c env ds (acc ++ [.depCheck d])
    else (false, acc ++ [.depCheck d])
  | [], acc => statelessGuardStep c env acc

/-- The stateless `testInstance` path (no tracker): evaluate the criteria in
the same order but return immediately on the first failure, with no side
effects.  Returns the result and the trace of criteria actually evaluated. -/
def testInstanceStateless (c : Criteria) (env : TrackerEnv) : Bool × List CheckStep :=
  statelessDepLoop c env c.deps []

/-- Whether one evaluated criterion passes in the given environment. -/
def stepPasses (env : TrackerEnv) : CheckStep → Bool
  | .depCheck d => env.depQualified d
  | .guardCheck => env.guardOk
  | .tagCheck => env.hasTag

/-- `ComponentTracker.untrackInstance` on the tracker's `instances` map:
remove one listener; when the listener set becomes empty, run every cleanup
action and delete the tracked state.  Returns the new map and the list of
cleanup actions executed. -/
def untrackInstance (instances : List (Nat × InstanceTracker)) (e lid : Nat) :
    List (Nat × InstanceTracker) × List Nat :=
  match lookupA instances e with
  | none => (instances, [])
  | some tr =>
    let ls := tr.listeners.erase lid
    if ls.isEmpty then (eraseA instances e, tr.cleanup)
    else (insertA instances e { tr with listeners := ls }, [])

/-- Processing of one listener invocation of the dependency's tracker during
`propagateStep`: the registered dependency listener `depLid` toggles the
`Marker.dep d2` marker on the depending tracker and re-evaluates. -/
def depListenerFold (d2 depLid : Nat) (acc : InstanceTracker × List (Nat × Bool))
    (inv : Nat × Bool) : InstanceTracker × List (Nat × Bool) :=
  if inv.1 = depLid then
    ((applyMutation (.mDepListener d2 inv.2) acc.1).1,
     acc.2 ++ (applyMutation (.mDepListener d2 inv.2) acc.1).2)
  else acc

/-- Dependency propagation between two trackers for one entity: `tr2` is the
dependency's tracking state whose listener set contains (as `depLid`) the
listener that `setupTracker` of the depending tracker registered; `tr1` is
the depending tracker's state, holding the marker `Marker.dep d2` for `tr2`.
A mutation `m` is applied to `tr2`; every invocation of `depLid` runs the
dependency listener on `tr1` (delete/add the `Marker.dep d2` marker with the
reported qualification, then `updateListeners`).  Returns both updated
trackers and the invocations of `tr1`'s own listeners. -/
def propagateStep (m : TrackerMutation) (tr2 tr1 : InstanceTracker)
    (depLid d2 : Nat) : InstanceTracker × InstanceTracker × List (Nat × Bool) :=
  ((applyMutation m tr2).1,
   ((applyMutation m tr2).2.foldl (depListenerFold d2 depLid) (tr1, [])).1,
   ((applyMutation m tr2).2.foldl (depListenerFold d2 depLid) (tr1, [])).2)

/-!
## Component registry (`Components`)

Entities, component constructors, component instances and promise resolvers
are numbers.  The mutable registry state mirrors the fields of `Components`:
`activeComponents`, `activeInheritedComponents`, `reverseComponentsMapping`
and `componentWaiters`, plus the cached `isQualified` flags of the trackers'
tracked entities (read by `checkInstance`).  Two ghost logs record the
observable events the claims talk about: every deferred construction run
(`constructedLog`) and every waiter resolution (`resolvedLog`).
Thrown errors (Lua `error`/`assert`) become `CompError` values returned next
to the state reached at the throw. -/

/-- Decidable equality for `Except` results, used to evaluate the embedding
at concrete inputs. -/
instance {err α : Type} [DecidableEq err] [DecidableEq α] :
    DecidableEq (Except err α) := fun x y =>
  match x, y with
  | .ok a, .ok b =>
    if h : a = b then .isTrue (by rw [h])
    else .isFalse (fun hc => h (Except.ok.inj hc))
  | .error a, .error b =>
    if h : a = b then .isTrue (by rw [h])
    else .isFalse (fun hc => h (Except.error.inj hc))
  | .ok _, .error _ => .isFalse (fun hc => Except.noConfusion hc)
  | .error _, .ok _ => .isFalse (fun hc => Except.noConfusion hc)

/-- The error taxonomy of `addComponent` (thrown strings / failed asserts in
the source), plus the fuel-exhaustion marker of the embedding. -/
inductive CompError : Type
  | unknownDefinition
  | invalidAttribute (entity : Nat) (attributeName : String) (identifier : String)
  | guardRejected (entity : Nat) (identifier : String)
  | unresolvedDependency (depIdentifier : String) (identifier : String) (entity : Nat)
  | outOfFuel
deriving DecidableEq, Repr

/-- External mutable world: entity attributes (written by `SetAttribute`),
CollectionService tag assignments, and which entities have a `Parent`. -/
structure World : Type where
  attrs : List ((Nat × String) × Nat)
  tagged : List (Nat × String)
  hasParent : List Nat
deriving DecidableEq, Repr

/-- `instance.GetAttribute(k)` / one entry of `instance.GetAttributes()`. -/
def getAttr (w : World) (e : Nat) (k : String) : Option Nat :=
  lookupA w.attrs (e, k)

/-- `instance.SetAttribute(k, v)`. -/
def setAttr (w : World) (e : Nat) (k : String) (v : Nat) : World :=
  { w with attrs := insertA w.attrs (e, k) v }

/-- Static description of one registered component (the `ComponentInfo`
record together with the config/metadata lookups that are constant per
constructor: merged attribute guards, defaults, instance guard, the ordered
ancestor identifiers from `getOrderedParents` and the declared
`flamework:implements` identifiers). -/
structure ComponentInfo : Type where
  identifier : String
  tag : Option String
  attributeGuards : List (String × (Option Nat → Bool))
  defaults : List (String × Nat)
  instanceGuard : Option (Nat → Bool)
  componentDependencies : List Nat
  ancestors : List String
  implements : List String

/-- The `components` map built by `onInit`, keyed by constructor. -/
def Registry : Type := List (Nat × ComponentInfo)

/-- The identifiers under which `addComponent` registers an instance: its own
identifier (the head of `getOrderedParents`), every ancestor identifier, and
every implemented interface identifier. -/
def idMappings (info : ComponentInfo) : List String :=
  info.identifier :: (info.ancestors ++ info.implements)

/-- Mutable registry state. -/
structure State : Type where
  active : List (Nat × List (Nat × Nat))
  inherited : List (Nat × List (String × List Nat))
  reverseMapping : List (String × List Nat)
  waiters : List (Nat × List (Nat × List Nat))
  trackedQualified : List ((Nat × Nat) × Bool)
  nextId : Nat
  constructedLog : List Nat
  resolvedLog : List (Nat × Nat)
deriving DecidableEq, Repr

/-- The empty registry state. -/
def emptyState : State :=
  { active := [], inherited := [], reverseMapping := [], waiters := [],
    trackedQualified := [], nextId := 0, constructedLog := [], resolvedLog := [] }

/-- `activeComponents.get(instance)?.get(component)`. -/
def lookupActive (st : State) (e c : Nat) : Option Nat :=
  lookupA ((lookupA st.active e).getD []) c

/-- The waiter set registered for `(entity, component)`. -/
def lookupWaitersList (st : State) (e c : Nat) : List Nat :=
  ((lookupA ((lookupA st.waiters e).getD []) c).getD [])

/-- Number of registrations of one waiter across the whole waiter index. -/
def countW (st : State) (wid : Nat) : Nat :=
  (st.waiters.map (fun p => (p.2.map (fun q => q.2.count wid)).sum)).sum

/-- The attribute-reading loop of `Components.getAttributes`: `w0` is the
`instance.GetAttributes()` snapshot taken once at entry, `w` accumulates the
`SetAttribute` write-backs of configured defaults, `acc` the validated
attribute cache.  A value failing its guard with no configured default throws
`InvalidAttribute` on the spot. -/
def getAttributesGo (info : ComponentInfo) (e : Nat) (w0 : World) :
    List (String × (Option Nat → Bool)) → World → List (String × Nat) →
    World × Except CompError (List (String × Nat))
  | [], w, acc => (w, .ok acc)
  | (k, g) :: rest, w, acc =>
    if g (getAttr w0 e k) then
      getAttributesGo info e w0 rest w
        (match getAttr w0 e k with
          | some x => insertA acc k x
          | none => eraseA acc k)
    else
      match lookupA info.defaults k with
      | some d => getAttributesGo info e w0 rest (setAttr w e k d) (insertA acc k d)
      | none => (w, .error (.invalidAttribute e k info.identifier))

/-- `Components.getAttributes`. -/
def getAttributesF (info : ComponentInfo) (w : World) (e : Nat) :
    World × Except CompError (List (String × Nat)) :=
  getAttributesGo info e w info.attributeGuards w []

/-- The instance-guard check of `addComponent` (vacuously true when no guard
is configured). -/
def instanceGuardOk (info : ComponentInfo) (e : Nat) : Bool :=
  match info.instanceGuard with
  | some g => g e
  | none => true

/-- `ComponentTracker.checkInstance` as seen through the registry: a tracked
entity answers its cached `isQualified`; an untracked one is evaluated
statelessly against the tracker criteria `getComponentTracker` builds from
the config (dependencies' `checkInstance` recursively, then the instance
guard, then the CollectionService tag).  Fuel bounds the dependency
recursion of the embedding. -/
def checkInstanceF : Nat → Registry → State → World → Nat → Nat → Bool
  | 0, _, _, _, _, _ => false
  | fuel + 1, reg, st, w, c, e =>
    match lookupA st.trackedQualified (c, e) with
    | some b => b
    | none =>
      match lookupA reg c with
      | none => false
      | some info =>
        info.componentDependencies.all (fun d => checkInstanceF fuel reg st w d e) &&
        instanceGuardOk info e &&
        (match info.tag with
          | some tg => w.tagged.contains (e, tg)
          | none => true)

/-- `Components.canCreateComponentEager`: the definition must exist and be
tag-bound, the entity must have a `Parent` and currently carry the tag, and
the entity must qualify per the tracker's `checkInstance`. -/
def canCreateComponentEagerF (fuel : Nat) (reg : Registry) (st : State)
    (w : World) (c e : Nat) : Bool :=
  match lookupA reg c with
  | none => false
  | some info =>
    match info.tag with
    | none => false
    | some tg =>
      w.hasParent.contains e && w.tagged.contains (e, tg) &&
      checkInstanceF fuel reg st w c e

/-- The `activeComponents`/`activeInheritedComponents` entry creation of
`addComponent` (performed after validation, before the idempotence check). -/
def ensureEntries (st : State) (e : Nat) : State :=
  { st with
    active := if (lookupA st.active e).isSome then st.active
              else st.active ++ [(e, [])],
    inherited := if (lookupA st.inherited e).isSome then st.inherited
                 else st.inherited ++ [(e, [])] }

/-- `Components.addIdMapping` for entity `e`: add the instance to the
`inherited` bucket and the global reverse bucket of one identifier, creating
the buckets when absent. -/
def addIdMappingF (st : State) (e i : Nat) (id : String) : State :=
  let m := (lookupA st.inherited e).getD []
  let bucket := (lookupA m id).getD []
  let rbucket := (lookupA st.reverseMapping id).getD []
  { st with
    inherited := insertA st.inherited e (insertA m id (addS bucket i)),
    reverseMapping := insertA st.reverseMapping id (addS rbucket i) }

/-- `Components.removeIdMapping`: delete the instance from the `inherited`
bucket and the reverse bucket of one identifier, pruning every collection
that becomes empty (the reverse bucket, the identifier entry, the entity's
inherited map).  Returns the state unchanged when any of the three lookups
misses, as the source's early returns do. -/
def removeIdMappingF (st : State) (e i : Nat) (id : String) : State :=
  match lookupA st.inherited e with
  | none => st
  | some m =>
    match lookupA m id with
    | none => st
    | some bucket =>
      match lookupA st.reverseMapping id with
      | none => st
      | some rbucket =>
        let bucket' := bucket.erase i
        let rbucket' := rbucket.erase i
        let rev' := if rbucket'.isEmpty then eraseA st.reverseMapping id
                    else insertA st.reverseMapping id rbucket'
        let m' := if bucket'.isEmpty then eraseA m id
                  else insertA m id bucket'
        let inh' := if m'.isEmpty then eraseA st.inherited e
                    else insertA st.inherited e m'
        { st with inherited := inh', reverseMapping := rev' }

/-- Registration phase of `addComponent`'s fresh path: allocate the deferred
instance, put it into `activeComponents` before construction runs (the
load-bearing two-phase ordering), register it under every identifier of
`getOrderedParents` and `flamework:implements`, and record the start of its
construction body.  Returns the new state and the allocated instance. -/
def registerMid (st : State) (e c : Nat) : State :=
  { st with nextId := st.nextId + 1,
            active := insertA st.active e
              (insertA ((lookupA st.active e).getD []) c st.nextId) }

def registerComponent (st : State) (e c : Nat) (info : ComponentInfo) :
    State × Nat :=
  let st2 := (idMappings info).foldl
    (fun s id => addIdMappingF s e st.nextId id) (registerMid st e c)
  ({ st2 with constructedLog := st2.constructedLog ++ [st.nextId] }, st.nextId)

/-- The waiter-resolution tail of `setupComponent`: delete the waiter set of
`(entity, component)` (pruning the entity entry when it empties) and invoke
every waiter with the component, recorded in the resolution log. -/
def resolveWaiters (st : State) (e c i : Nat) : State :=
  match lookupA ((lookupA st.waiters e).getD []) c with
  | none => st
  | some ws =>
    { st with
      waiters :=
        if (eraseA ((lookupA st.waiters e).getD []) c).isEmpty then
          eraseA st.waiters e
        else
          insertA st.waiters e (eraseA ((lookupA st.waiters e).getD []) c),
      resolvedLog := st.resolvedLog ++ ws.map (fun wid => (wid, i)) }

mutual

/-- `Components.addComponent`: resolve the definition (`UnknownDefinition`),
validate and normalize attributes (`InvalidAttribute`), unless
`skipInstanceCheck` re-validate the instance guard (`GuardRejected`), create
the per-entity map entries, return the existing instance when already
attached, otherwise allocate and register the instance before running its
construction body (which resolves declared component dependencies through
`getComponent` and throws `UnresolvedDependency` on a miss), then resolve
pending waiters.  Fuel bounds the construction recursion of the embedding. -/
def addComponentF : Nat → Registry → State → World → Nat → Nat → Bool →
    State × World × Except CompError Nat
  | 0, _, st, w, _, _, _ => (st, w, .error .outOfFuel)
  | fuel + 1, reg, st, w, e, c, skip =>
    match lookupA reg c with
    | none => (st, w, .error .unknownDefinition)
    | some info =>
      match getAttributesF info w e with
      | (w', .error er) => (st, w', .error er)
      | (w', .ok _) =>
        if !skip && !instanceGuardOk info e then
          (st, w', .error (.guardRejected e info.identifier))
        else
          let st1 := ensureEntries st e
          match lookupActive st1 e c with
          | some existing => (st1, w', .ok existing)
          | none =>
            let reg1 := registerComponent st1 e c info
            match resolveDepsF fuel reg reg1.1 w' e info.identifier
                info.componentDependencies with
            | (st3, w2, .error er) => (st3, w2, .error er)
            | (st3, w2, .ok _) =>
              (resolveWaiters st3 e c reg1.2, w2, .ok reg1.2)
termination_by structural fuel => fuel

/-- `Components.getComponent`: the exact active instance when attached, else
the eager-creation path (`canCreateComponentEager` then `addComponent` with
the instance check skipped), else `undefined` (`none`). -/
def getComponentF : Nat → Registry → State → World → Nat → Nat →
    State × World × Except CompError (Option Nat)
  | 0, _, st, w, _, _ => (st, w, .error .outOfFuel)
  | fuel + 1, reg, st, w, e, c =>
    match lookupActive st e c with
    | some i => (st, w, .ok (some i))
    | none =>
      if canCreateComponentEagerF (fuel + 1) reg st w c e then
        match addComponentF fuel reg st w e c true with
        | (st', w', .error er) => (st', w', .error er)
        | (st', w', .ok i) => (st', w', .ok (some i))
      else (st, w, .ok none)
termination_by structural fuel => fuel

/-- The construction body's dependency resolution: for each declared
component dependency the resolution handle of
`getDependencyResolutionOptions` runs `getComponent` on the same entity and
throws `UnresolvedDependency` when it yields `undefined` (constructors that
are not registered components are left to ordinary dependency injection,
modelled as a skip). -/
def resolveDepsF : Nat → Registry → State → World → Nat → String → List Nat →
    State × World × Except CompError Unit
  | 0, _, st, w, _, _, _ => (st, w, .error .outOfFuel)
  | _ + 1, _, st, w, _, _, [] => (st, w, .ok ())
  | fuel + 1, reg, st, w, e, ident, d :: ds =>
    match lookupA reg d with
    | none => resolveDepsF fuel reg st w e ident ds
    | some dinfo =>
      match getComponentF fuel reg st w e d with
      | (st', w', .error er) => (st', w', .error er)
      | (st', w', .ok none) =>
        (st', w', .error (.unresolvedDependency dinfo.identifier ident e))
      | (st', w', .ok (some _)) => resolveDepsF fuel reg st' w' e ident ds
termination_by structural fuel => fuel

end

/-- `Components.removeComponent`: no-op when not attached; otherwise destroy
the instance, delete it from `activeComponents`, remove every identifier
mapping (pruning emptied buckets and maps), and delete the entity's
`activeComponents` entry when it became empty. -/
def removeComponentF (reg : Registry) (st : State) (e c : Nat) : State :=
  match lookupA st.active e with
  | none => st
  | some acts =>
    match lookupA acts c with
    | none => st
    | some i =>
      let acts' := eraseA acts c
      let st1 := { st with active := insertA st.active e acts' }
      let ids := match lookupA reg c with
        | some info => idMappings info
        | none => []
      let st2 := ids.foldl (fun s id => removeIdMappingF s e i id) st1
      if acts'.isEmpty then { st2 with active := eraseA st2.active e } else st2

/-- `Components.waitForComponent`: run `getComponent`; an instance resolves
the promise immediately (`some`), otherwise the resolver `wid` is registered
in the waiter index (creating the nested maps as needed) and the promise
stays pending (`none`). -/
def waitForComponentF (fuel : Nat) (reg : Registry) (st : State) (w : World)
    (e c wid : Nat) : State × World × Except CompError (Option Nat) :=
  match getComponentF fuel reg st w e c with
  | (st', w', .error er) => (st', w', .error er)
  | (st', w', .ok (some i)) => (st', w', .ok (some i))
  | (st', w', .ok none) =>
    let iw := (lookupA st'.waiters e).getD []
    let ws := (lookupA iw c).getD []
    ({ st' with waiters := insertA st'.waiters e (insertA iw c (addS ws wid)) },
     w', .ok none)

/-- The `onCancel` body of `waitForComponent`: delete the resolver from its
waiter set, and prune the component entry and then the entity entry when
they become empty. -/
def cancelWaiterF (st : State) (e c wid : Nat) : State :=
  match lookupA st.waiters e with
  | none => st
  | some iw =>
    match lookupA iw c with
    | none => st
    | some ws =>
      { st with waiters :=
          (if (if (ws.erase wid).isEmpty then eraseA iw c
               else insertA iw c (ws.erase wid)).isEmpty then
            eraseA st.waiters e
          else
            insertA st.waiters e
              (if (ws.erase wid).isEmpty then eraseA iw c
               else insertA iw c (ws.erase wid))) }

/-!
## Tracker lemmas
-/

/-- The tracked-state invariant: the cached flag matches the marker set. -/
def trackerInv (tr : InstanceTracker) : Prop :=
  tr.isQualified = computeQualified tr

instance (tr : InstanceTracker) : Decidable (trackerInv tr) := by
  unfold trackerInv; infer_instance

theorem updateListeners_fst (tr : InstanceTracker) :
    (updateListeners tr).1 = { tr with isQualified := tr.unmetCriteria.isEmpty } := by
  unfold updateListeners
  split
  · rfl
  · rename_i h
    have hq : tr.unmetCriteria.isEmpty = tr.isQualified := by
      by_contra hc
      exact h hc
    cases tr
    simp_all

theorem updateListeners_snd (tr : InstanceTracker) :
    (updateListeners tr).2 =
      (if tr.unmetCriteria.isEmpty ≠ tr.isQualified then
        tr.listeners.map (fun l => (l, tr.unmetCriteria.isEmpty))
      else []) := by
  unfold updateListeners
  split <;> simp_all

/-- `applyMutation` characterized: the resulting flag always equals the
emptiness of the resulting marker set (given the invariant held before, for
the handler branches that do not mutate), and the invocations are exactly
the registered listeners paired with the new value when the boolean flipped,
nothing otherwise. -/
theorem applyMutation_spec (m : TrackerMutation) (tr : InstanceTracker)
    (h : trackerInv tr) :
    trackerInv (applyMutation m tr).1 ∧
    (applyMutation m tr).1.listeners = tr.listeners ∧
    (applyMutation m tr).2 =
      (if computeQualified (applyMutation m tr).1 ≠ tr.isQualified then
        tr.listeners.map (fun l => (l, computeQualified (applyMutation m tr).1))
      else []) := by
  have core : ∀ tr' : InstanceTracker, tr'.isQualified = tr.isQualified →
      tr'.listeners = tr.listeners →
      trackerInv (updateListeners tr').1 ∧
      (updateListeners tr').1.listeners = tr.listeners ∧
      (updateListeners tr').2 =
        (if computeQualified (updateListeners tr').1 ≠ tr.isQualified then
          tr.listeners.map (fun l => (l, computeQualified (updateListeners tr').1))
        else []) := by
    intro tr' hq hl
    refine ⟨?_, ?_, ?_⟩
    · simp [trackerInv, updateListeners_fst, computeQualified]
    · simp [updateListeners_fst, hl]
    · rw [updateListeners_snd, updateListeners_fst, hq, hl]
      simp [computeQualified]
  have noop : [] =
      (if computeQualified tr ≠ tr.isQualified then
        tr.listeners.map (fun l => (l, computeQualified tr))
      else []) := by
    unfold trackerInv at h
    rw [if_neg]
    intro hc
    exact hc h.symm
  cases m with
  | mSetHasTag hasTag =>
    by_cases hb : hasTag <;>
      simpa [applyMutation, hb] using
        core _ (by simp [removeMarker, addMarker]) (by simp [removeMarker, addMarker])
  | mDepListener d q =>
    by_cases hb : q <;>
      simpa [applyMutation, hb] using
        core _ (by simp [removeMarker, addMarker]) (by simp [removeMarker, addMarker])
  | mPollAdded g =>
    by_cases hb : g
    · simpa [applyMutation, hb] using
        core _ (by simp [removeMarker]) (by simp [removeMarker])
    · simp only [applyMutation, hb, if_false, Bool.false_eq_true]
      exact ⟨h, by simp, noop⟩
  | mPollRemoving g =>
    by_cases hb : g
    · simp only [applyMutation, hb, Bool.not_true, if_false, Bool.false_eq_true]
      exact ⟨h, by simp, noop⟩
    · simpa [applyMutation, hb] using
        core _ (by simp [addMarker]) (by simp [addMarker])

/-- `failStep` preserves the invariant, the listener set, and silence. -/
theorem failStep_inv (acc : TestOut) (m : Marker) (s : CheckStep) (ls : List Nat)
    (h2 : acc.tracker.listeners = ls) (h3 : ls = [] → acc.invocations = []) :
    trackerInv (failStep acc m s).tracker ∧
    (failStep acc m s).tracker.listeners = ls ∧
    (ls = [] → (failStep acc m s).invocations = []) := by
  refine ⟨?_, ?_, ?_⟩
  · simp [failStep, trackerInv, updateListeners_fst, computeQualified, addMarker]
  · simp [failStep, updateListeners_fst, addMarker, h2]
  · intro hls
    simp [failStep, h3 hls, updateListeners_snd, addMarker, h2, hls]

/-- Invariant through the full-evaluation dependency fold of `testInstance`. -/
theorem testInstance_depfold_inv (env : TrackerEnv) (ds : List Nat)
    (acc : TestOut) (ls : List Nat)
    (h : trackerInv acc.tracker ∧ acc.tracker.listeners = ls ∧
         (ls = [] → acc.invocations = [])) :
    trackerInv (ds.foldl (depStep env) acc).tracker ∧
    (ds.foldl (depStep env) acc).tracker.listeners = ls ∧
    (ls = [] → (ds.foldl (depStep env) acc).invocations = []) := by
  induction ds generalizing acc with
  | nil => exact h
  | cons d rest ih =>
    simp only [List.foldl_cons]
    apply ih
    by_cases hq : env.depQualified d
    · simpa [depStep, hq] using h
    · obtain ⟨h1, h2, h3⟩ := h
      simpa [depStep, hq] using failStep_inv acc (.dep d) (.depCheck d) ls h2 h3

/-- Invariant and silence (no registered listeners yet) of the full
`testInstance` evaluation. -/
theorem testInstance_inv (c : Criteria) (env : TrackerEnv) (tr : InstanceTracker)
    (h : trackerInv tr) :
    trackerInv (testInstance c env tr).tracker ∧
    (testInstance c env tr).tracker.listeners = tr.listeners ∧
    (tr.listeners = [] → (testInstance c env tr).invocations = []) := by
  unfold testInstance
  have hd := testInstance_depfold_inv env c.deps
    { tracker := tr, invocations := [], result := true, trace := [] } tr.listeners
    ⟨h, rfl, fun _ => rfl⟩
  set depOut := c.deps.foldl (depStep env)
    { tracker := tr, invocations := [], result := true, trace := [] } with hdef
  obtain ⟨hi1, hi2, hi3⟩ := hd
  have hg : trackerInv (if c.typeGuard then
        if env.guardOk then { depOut with trace := depOut.trace ++ [.guardCheck] }
        else failStep depOut .typeGuard .guardCheck
      else depOut).tracker ∧
      (if c.typeGuard then
        if env.guardOk then { depOut with trace := depOut.trace ++ [.guardCheck] }
        else failStep depOut .typeGuard .guardCheck
      else depOut).tracker.listeners = tr.listeners ∧
      (tr.listeners = [] → (if c.typeGuard then
        if env.guardOk then { depOut with trace := depOut.trace ++ [.guardCheck] }
        else failStep depOut .typeGuard .guardCheck
      else depOut).invocations = []) := by
    by_cases htg : c.typeGuard <;> by_cases hgo : env.guardOk <;>
      simp only [htg, hgo, if_true, if_false, ite_true, ite_false]
    · exact ⟨hi1, hi2, hi3⟩
    · exact ⟨(failStep_inv depOut _ _ _ hi2 hi3).1, (failStep_inv depOut _ _ _ hi2 hi3).2.1,
        (failStep_inv depOut _ _ _ hi2 hi3).2.2⟩
    · exact ⟨hi1, hi2, hi3⟩
    · exact ⟨hi1, hi2, hi3⟩
  set guardOut := (if c.typeGuard then
        if env.guardOk then { depOut with trace := depOut.trace ++ [.guardCheck] }
        else failStep depOut .typeGuard .guardCheck
      else depOut) with hgdef
  obtain ⟨hg1, hg2, hg3⟩ := hg
  by_cases hta : c.tag <;> by_cases hht : env.hasTag <;>
    simp only [hta, hht, if_true, if_false, ite_true, ite_false]
  · exact ⟨hg1, hg2, hg3⟩
  · exact ⟨(failStep_inv guardOut _ _ _ hg2 hg3).1, (failStep_inv guardOut _ _ _ hg2 hg3).2.1,
      (failStep_inv guardOut _ _ _ hg2 hg3).2.2⟩
  · exact ⟨hg1, hg2, hg3⟩
  · exact ⟨hg1, hg2, hg3⟩

/-!
## Claim C1
-/

/-- **C1**: for every tracked (definition, entity) pair, after any mutation of
the unmet-criteria set — `setHasTag`, a dependency listener firing, a polling
re-evaluation (all via `updateListeners`), or the initial full evaluation on
first track — the cached `isQualified` flag equals `unmetCriteria.isEmpty()`,
and the registered listeners are invoked, with the new value, exactly when
that boolean changed; a mutation that leaves the boolean unchanged invokes no
listener (and on first track no listener is registered yet, so the initial
evaluation invokes none). -/
theorem c1_qualification_invariant :
    (∀ tr : InstanceTracker,
      (updateListeners tr).1.isQualified = computeQualified (updateListeners tr).1 ∧
      (updateListeners tr).2 =
        (if computeQualified tr ≠ tr.isQualified then
          tr.listeners.map (fun l => (l, computeQualified tr))
        else [])) ∧
    (∀ (m : TrackerMutation) (tr : InstanceTracker), trackerInv tr →
      trackerInv (applyMutation m tr).1 ∧
      (applyMutation m tr).2 =
        (if computeQualified (applyMutation m tr).1 ≠ tr.isQualified then
          tr.listeners.map (fun l => (l, computeQualified (applyMutation m tr).1))
        else [])) ∧
    (∀ (c : Criteria) (env : TrackerEnv),
      trackerInv (testInstance c env freshTracker).tracker ∧
      (testInstance c env freshTracker).invocations = []) := by
  refine ⟨?_, ?_, ?_⟩
  · intro tr
    constructor
    · simp [updateListeners_fst, computeQualified]
    · rw [updateListeners_snd]
      rfl
  · intro m tr h
    exact ⟨(applyMutation_spec m tr h).1, (applyMutation_spec m tr h).2.2⟩
  · intro c env
    have h := testInstance_inv c env freshTracker (by decide)
    exact ⟨h.1, h.2.2 rfl⟩

/-- A concrete tracked state used by the C1 witness. -/
def trA : InstanceTracker :=
  { isQualified := true, unmetCriteria := [], listeners := [3], cleanup := [] }

theorem c1_witness :
    trackerInv (applyMutation (TrackerMutation.mSetHasTag false) trA).1 ∧
    (applyMutation (TrackerMutation.mSetHasTag false) trA).2 =
      (if computeQualified (applyMutation (TrackerMutation.mSetHasTag false) trA).1 ≠
          trA.isQualified then
        trA.listeners.map
          (fun l => (l, computeQualified (applyMutation (TrackerMutation.mSetHasTag false) trA).1))
      else []) :=
  c1_qualification_invariant.2.1 (TrackerMutation.mSetHasTag false) trA (by decide)

/-!
## Claim C4
-/

/-- The criteria evaluations of a full (tracker-present) `testInstance` run,
in the order the source performs them. -/
def fullTrace (c : Criteria) : List CheckStep :=
  c.deps.map CheckStep.depCheck ++
    (if c.typeGuard then [CheckStep.guardCheck] else []) ++
    (if c.tag then [CheckStep.tagCheck] else [])

theorem depfold_trace (env : TrackerEnv) (ds : List Nat) (acc : TestOut) :
    (ds.foldl (depStep env) acc).trace = acc.trace ++ ds.map CheckStep.depCheck := by
  induction ds generalizing acc with
  | nil => simp
  | cons d rest ih =>
    simp only [List.foldl_cons, List.map_cons]
    rw [ih]
    by_cases hq : env.depQualified d <;> simp [depStep, failStep, hq]

theorem testInstance_trace (c : Criteria) (env : TrackerEnv) (tr : InstanceTracker) :
    (testInstance c env tr).trace = fullTrace c := by
  unfold testInstance fullTrace
  by_cases htg : c.typeGuard <;> by_cases hgo : env.guardOk <;>
    by_cases hta : c.tag <;> by_cases hht : env.hasTag <;>
      simp [htg, hgo, hta, hht, failStep, depfold_trace]

theorem statelessGuardStep_spec (c : Criteria) (env : TrackerEnv) (acc : List CheckStep) :
    (∃ rest, acc ++ ((if c.typeGuard then [CheckStep.guardCheck] else []) ++
        (if c.tag then [CheckStep.tagCheck] else [])) =
      (statelessGuardStep c env acc).2 ++ rest) ∧
    ((statelessGuardStep c env acc).1 = true →
      (statelessGuardStep c env acc).2 =
        acc ++ ((if c.typeGuard then [CheckStep.guardCheck] else []) ++
          (if c.tag then [CheckStep.tagCheck] else []))) ∧
    ((statelessGuardStep c env acc).1 = false →
      ∃ pre x, (statelessGuardStep c env acc).2 = acc ++ pre ++ [x] ∧
        stepPasses env x = false ∧ ∀ y ∈ pre, stepPasses env y = true) := by
  by_cases htg : c.typeGuard <;> by_cases hgo : env.guardOk <;>
    by_cases hta : c.tag <;> by_cases hht : env.hasTag <;>
      simp only [statelessGuardStep, statelessTagStep, htg, hgo, hta, hht,
        if_true, if_false, ite_true, ite_false]
  · exact ⟨⟨[], by simp⟩, fun _ => by simp, fun h => by simp at h⟩
  · refine ⟨⟨[], by simp⟩, fun h => by simp at h, fun _ => ?_⟩
    exact ⟨[CheckStep.guardCheck], CheckStep.tagCheck, by simp,
      by simp [stepPasses, hht], by simp [stepPasses, hgo]⟩
  · exact ⟨⟨[], by simp⟩, fun _ => by simp, fun h => by simp at h⟩
  · exact ⟨⟨[], by simp⟩, fun _ => by simp, fun h => by simp at h⟩
  · refine ⟨⟨[CheckStep.tagCheck], by simp⟩, fun h => by simp at h, fun _ => ?_⟩
    exact ⟨[], CheckStep.guardCheck, by simp, by simp [stepPasses, hgo], by simp⟩
  · refine ⟨⟨[CheckStep.tagCheck], by simp⟩, fun h => by simp at h, fun _ => ?_⟩
    exact ⟨[], CheckStep.guardCheck, by simp, by simp [stepPasses, hgo], by simp⟩
  · refine ⟨⟨[], by simp⟩, fun h => by simp at h, fun _ => ?_⟩
    exact ⟨[], CheckStep.guardCheck, by simp, by simp [stepPasses, hgo], by simp⟩
  · refine ⟨⟨[], by simp⟩, fun h => by simp at h, fun _ => ?_⟩
    exact ⟨[], CheckStep.guardCheck, by simp, by simp [stepPasses, hgo], by simp⟩
  · exact ⟨⟨[], by simp⟩, fun _ => by simp, fun h => by simp at h⟩
  · refine ⟨⟨[], by simp⟩, fun h => by simp at h, fun _ => ?_⟩
    exact ⟨[], CheckStep.tagCheck, by simp, by simp [stepPasses, hht], by simp⟩
  · exact ⟨⟨[], by simp⟩, fun _ => by simp, fun h => by simp at h⟩
  · exact ⟨⟨[], by simp⟩, fun _ => by simp, fun h => by simp at h⟩
  · exact ⟨⟨[], by simp⟩, fun _ => by simp, fun h => by simp at h⟩
  · refine ⟨⟨[], by simp⟩, fun h => by simp at h, fun _ => ?_⟩
    exact ⟨[], CheckStep.tagCheck, by simp, by simp [stepPasses, hht], by simp⟩
  · exact ⟨⟨[], by simp⟩, fun _ => by simp, fun h => by simp at h⟩
  · exact ⟨⟨[], by simp⟩, fun _ => by simp, fun h => by simp at h⟩

theorem statelessDepLoop_spec (c : Criteria) (env : TrackerEnv) (ds : List Nat) :
    ∀ acc : List CheckStep,
    (∃ rest, acc ++ (ds.map CheckStep.depCheck ++
        ((if c.typeGuard then [CheckStep.guardCheck] else []) ++
          (if c.tag then [CheckStep.tagCheck] else []))) =
      (statelessDepLoop c env ds acc).2 ++ rest) ∧
    ((statelessDepLoop c env ds acc).1 = true →
      (statelessDepLoop c env ds acc).2 =
        acc ++ (ds.map CheckStep.depCheck ++
          ((if c.typeGuard then [CheckStep.guardCheck] else []) ++
            (if c.tag then [CheckStep.tagCheck] else [])))) ∧
    ((statelessDepLoop c env ds acc).1 = false →
      ∃ pre x, (statelessDepLoop c env ds acc).2 = acc ++ pre ++ [x] ∧
        stepPasses env x = false ∧ ∀ y ∈ pre, stepPasses env y = true) := by
  induction ds with
  | nil =>
    intro acc
    have h := statelessGuardStep_spec c env acc
    simpa [statelessDepLoop] using h
  | cons d rest ih =>
    intro acc
    by_cases hq : env.depQualified d
    · obtain ⟨⟨r, hr⟩, hb, hc⟩ := ih (acc ++ [CheckStep.depCheck d])
      refine ⟨⟨r, ?_⟩, ?_, ?_⟩
      · simp only [statelessDepLoop, hq, if_true]
        simpa [List.append_assoc] using hr
      · intro ht
        simp only [statelessDepLoop, hq, if_true] at ht ⊢
        simpa [List.append_assoc] using hb ht
      · intro ht
        simp only [statelessDepLoop, hq, if_true] at ht ⊢
        obtain ⟨pre, x, h1, h2, h3⟩ := hc ht
        refine ⟨CheckStep.depCheck d :: pre, x, by simpa [List.append_assoc] using h1, h2, ?_⟩
        intro y hy
        rcases List.mem_cons.mp hy with h | h
        · subst h
          simp only [stepPasses]
          exact hq
        · exact h3 y h
    · refine ⟨⟨rest.map CheckStep.depCheck ++
          ((if c.typeGuard then [CheckStep.guardCheck] else []) ++
            (if c.tag then [CheckStep.tagCheck] else [])), ?_⟩, ?_, ?_⟩
      · simp [statelessDepLoop, hq, List.append_assoc]
      · intro ht
        simp [statelessDepLoop, hq] at ht
      · intro _
        exact ⟨[], CheckStep.depCheck d, by simp [statelessDepLoop, hq],
          by simpa [stepPasses] using hq, by simp⟩

/-- **C4** counterexample: for a definition with a tag, a type guard and one
dependency, the stateless check evaluates a dependency first — not the tag —
and the full evaluation's order is dependency, then guard, then tag.  This
refutes the claimed tag → guard → dependencies order at a concrete input. -/
theorem c4_counterexample :
    (testInstanceStateless ⟨true, true, [7]⟩
        ⟨false, false, fun _ => false⟩).2 = [CheckStep.depCheck 7] ∧
    (testInstanceStateless ⟨true, true, [7]⟩
        ⟨false, false, fun _ => false⟩).2.head? ≠ some CheckStep.tagCheck ∧
    (testInstance ⟨true, true, [7]⟩ ⟨false, false, fun _ => false⟩ freshTracker).trace =
      [CheckStep.depCheck 7, CheckStep.guardCheck, CheckStep.tagCheck] := by
  decide

/-- **C4** (amended): the tracker evaluates its criteria in the fixed order
dependencies (in declared order) first, then the structural type guard, then
the tag — in both paths: the full evaluation on first track records a check
for every configured criterion in exactly that order, and the stateless check
path follows a prefix of the same order, stopping at the first failing
criterion (everything before it passed). -/
theorem c4_evaluation_order (c : Criteria) (env : TrackerEnv) (tr : InstanceTracker) :
    (testInstance c env tr).trace = fullTrace c ∧
    (∃ rest, fullTrace c = (testInstanceStateless c env).2 ++ rest) ∧
    ((testInstanceStateless c env).1 = true →
      (testInstanceStateless c env).2 = fullTrace c) ∧
    ((testInstanceStateless c env).1 = false →
      ∃ pre x, (testInstanceStateless c env).2 = pre ++ [x] ∧
        stepPasses env x = false ∧ ∀ y ∈ pre, stepPasses env y = true) := by
  obtain ⟨ha, hb, hc⟩ := statelessDepLoop_spec c env c.deps []
  refine ⟨testInstance_trace c env tr, ?_, ?_, ?_⟩
  · obtain ⟨r, hr⟩ := ha
    exact ⟨r, by simpa [fullTrace, testInstanceStateless, List.append_assoc] using hr⟩
  · intro ht
    have := hb ht
    simpa [fullTrace, testInstanceStateless, List.append_assoc] using this
  · intro ht
    obtain ⟨pre, x, h1, h2, h3⟩ := hc ht
    exact ⟨pre, x, by simpa using h1, h2, h3⟩

theorem c4_witness :
    (testInstanceStateless ⟨true, true, [7]⟩ ⟨true, true, fun _ => true⟩).2 =
      fullTrace ⟨true, true, [7]⟩ :=
  (c4_evaluation_order ⟨true, true, [7]⟩ ⟨true, true, fun _ => true⟩
    freshTracker).2.2.1 (by decide)

/-!
## Claim C9
-/

theorem c9_fold_none (d2 depLid : Nat) (xs : List (Nat × Bool))
    (p : InstanceTracker × List (Nat × Bool)) (h : ∀ x ∈ xs, x.1 ≠ depLid) :
    xs.foldl (depListenerFold d2 depLid) p = p := by
  induction xs generalizing p with
  | nil => rfl
  | cons x rest ih =>
    simp only [List.foldl_cons, depListenerFold,
      if_neg (h x (List.mem_cons_self x rest))]
    exact ih p fun y hy => h y (List.mem_cons_of_mem x hy)

theorem depListener_flips (d2 : Nat) (tr1 : InstanceTracker)
    (h1u : tr1.unmetCriteria = [Marker.dep d2]) (h1q : tr1.isQualified = false) :
    applyMutation (.mDepListener d2 true) tr1 =
      ({ tr1 with unmetCriteria := [], isQualified := true },
       tr1.listeners.map (fun l => (l, true))) := by
  simp [applyMutation, removeMarker, h1u, updateListeners, h1q]

theorem c9_fold_spec (d2 depLid : Nat) (ls : List Nat) (tr1 : InstanceTracker)
    (acc : List (Nat × Bool)) (hcount : ls.count depLid = 1)
    (h1u : tr1.unmetCriteria = [Marker.dep d2]) (h1q : tr1.isQualified = false) :
    (ls.map (fun l => (l, true))).foldl (depListenerFold d2 depLid) (tr1, acc) =
      ({ tr1 with unmetCriteria := [], isQualified := true },
       acc ++ tr1.listeners.map (fun l => (l, true))) := by
  induction ls generalizing acc with
  | nil => simp at hcount
  | cons l rest ih =>
    by_cases hl : l = depLid
    · subst hl
      have hzero : rest.count l = 0 := by
        have := hcount
        simp [List.count_cons] at this
        omega
      have hnone : ∀ x ∈ rest.map (fun y => (y, true)), x.1 ≠ l := by
        intro x hx
        obtain ⟨y, hy, rfl⟩ := List.mem_map.mp hx
        intro hc
        have hc' : y = l := hc
        subst hc'
        exact (List.count_eq_zero.mp hzero) hy
      simp only [List.map_cons, List.foldl_cons, depListenerFold, if_pos rfl]
      rw [depListener_flips d2 tr1 h1u h1q]
      exact c9_fold_none d2 l _ _ hnone
    · have hrest : rest.count depLid = 1 := by
        have := hcount
        simp [List.count_cons, hl] at this
        simpa using this
      simp only [List.map_cons, List.foldl_cons, depListenerFold, if_neg hl]
      exact ih acc hrest

theorem count_map_pair (ls : List Nat) (l : Nat) :
    (ls.map (fun x => (x, true))).count (l, true) = ls.count l := by
  induction ls with
  | nil => rfl
  | cons a rest ih =>
    by_cases h : a = l <;> simp [List.count_cons, h, ih]

/-- **C9**: if tracker D1 declares a dependency on tracker D2, and for a
tracked entity the D2-qualification transitions false → true while all of
D1's other criteria are already met (D1's unmet set is exactly the D2
marker), then D1's listeners are invoked with `true`, each exactly once, as a
result of that transition. -/
theorem c9_dependency_propagation (m : TrackerMutation) (tr2 tr1 : InstanceTracker)
    (depLid d2 : Nat)
    (h2inv : trackerInv tr2) (h2q : tr2.isQualified = false)
    (hflip : (applyMutation m tr2).1.isQualified = true)
    (hcount : tr2.listeners.count depLid = 1)
    (h1u : tr1.unmetCriteria = [Marker.dep d2]) (h1q : tr1.isQualified = false) :
    (propagateStep m tr2 tr1 depLid d2).2.2 = tr1.listeners.map (fun l => (l, true)) ∧
    (∀ l ∈ tr1.listeners, tr1.listeners.count l = 1 →
      ((propagateStep m tr2 tr1 depLid d2).2.2).count (l, true) = 1) := by
  obtain ⟨hinv', _, hsnd⟩ := applyMutation_spec m tr2 h2inv
  have hcq : computeQualified (applyMutation m tr2).1 = true := by
    unfold trackerInv at hinv'
    rw [← hinv', hflip]
  have hinvs : (applyMutation m tr2).2 = tr2.listeners.map (fun l => (l, true)) := by
    rw [hsnd, hcq, h2q, if_pos (by simp)]
  have hfold := c9_fold_spec d2 depLid tr2.listeners tr1 [] hcount h1u h1q
  have hmain : (propagateStep m tr2 tr1 depLid d2).2.2 =
      tr1.listeners.map (fun l => (l, true)) := by
    unfold propagateStep
    rw [hinvs, hfold]
    simp
  refine ⟨hmain, ?_⟩
  intro l _ hone
  rw [hmain, count_map_pair, hone]

theorem c9_witness :
    (propagateStep (TrackerMutation.mSetHasTag true) ⟨false, [Marker.tag], [0, 5], []⟩
        ⟨false, [Marker.dep 2], [9], []⟩ 0 2).2.2 =
      (⟨false, [Marker.dep 2], [9], []⟩ : InstanceTracker).listeners.map (fun l => (l, true)) :=
  (c9_dependency_propagation (TrackerMutation.mSetHasTag true)
    ⟨false, [Marker.tag], [0, 5], []⟩ ⟨false, [Marker.dep 2], [9], []⟩ 0 2
    (by decide) (by decide) (by decide) (by decide) (by decide) (by decide)).1

/-!
## Claim C8
-/

theorem getAttr_setAttr_self (w : World) (e : Nat) (k : String) (v : Nat) :
    getAttr (setAttr w e k v) e k = some v := by
  unfold getAttr setAttr
  exact lookupA_insertA_self _ _ _

theorem getAttr_setAttr_ne (w : World) (e e' : Nat) (k k' : String) (v : Nat)
    (h : (e', k') ≠ (e, k)) :
    getAttr (setAttr w e k v) e' k' = getAttr w e' k' := by
  unfold getAttr setAttr
  exact lookupA_insertA_ne _ _ _ _ h

/-- Full characterization of the attribute-reading loop, by induction on the
remaining guard list.  `w0` is the snapshot consulted for every read; the
invariant says the pending keys have not been written yet. -/
theorem getAttributesGo_spec (info : ComponentInfo) (e : Nat) (w0 : World)
    (gs : List (String × (Option Nat → Bool))) :
    ∀ (w : World) (acc : List (String × Nat)),
    (gs.map Prod.fst).Nodup →
    (∀ k, (∃ g, (k, g) ∈ gs) → getAttr w e k = getAttr w0 e k) →
    (∀ w' er, getAttributesGo info e w0 gs w acc = (w', .error er) →
      ∃ k g, (k, g) ∈ gs ∧ g (getAttr w0 e k) = false ∧
        lookupA info.defaults k = none ∧ er = .invalidAttribute e k info.identifier) ∧
    (∀ w' cache, getAttributesGo info e w0 gs w acc = (w', .ok cache) →
      (∀ k g, (k, g) ∈ gs →
        (g (getAttr w0 e k) = true →
          getAttr w' e k = getAttr w0 e k ∧ lookupA cache k = getAttr w0 e k) ∧
        (g (getAttr w0 e k) = false →
          ∃ d, lookupA info.defaults k = some d ∧ lookupA cache k = some d ∧
            getAttr w' e k = some d)) ∧
      (∀ k, k ∉ gs.map Prod.fst → lookupA cache k = lookupA acc k) ∧
      (∀ k, k ∉ gs.map Prod.fst → getAttr w' e k = getAttr w e k)) := by
  induction gs with
  | nil =>
    intro w acc _ _
    constructor
    · intro w' er h
      simp [getAttributesGo] at h
    · intro w' cache h
      simp only [getAttributesGo, Prod.mk.injEq] at h
      obtain ⟨rfl, hc⟩ := h
      have hc' : acc = cache := by
        cases hc
        rfl
      subst hc'
      exact ⟨fun k g hk => by simp at hk, fun k _ => rfl, fun k _ => rfl⟩
  | cons p rest ih =>
    obtain ⟨k, g⟩ := p
    intro w acc hnd hinv
    have hnd' : k ∉ rest.map Prod.fst ∧ (rest.map Prod.fst).Nodup := by
      rw [List.map_cons, List.nodup_cons] at hnd
      exact hnd
    have hknotin : k ∉ rest.map Prod.fst := hnd'.1
    have hndrest : (rest.map Prod.fst).Nodup := hnd'.2
    have hwk : getAttr w e k = getAttr w0 e k := hinv k ⟨g, List.mem_cons_self _ _⟩
    by_cases hg : g (getAttr w0 e k) = true
    · -- guard passes: cache the read value, no write
      have hred : getAttributesGo info e w0 ((k, g) :: rest) w acc =
          getAttributesGo info e w0 rest w
            (match getAttr w0 e k with
              | some x => insertA acc k x
              | none => eraseA acc k) := by
        simp [getAttributesGo, hg]
      obtain ⟨ihA, ihB⟩ := ih w
        (match getAttr w0 e k with
          | some x => insertA acc k x
          | none => eraseA acc k) hndrest
        (fun k' hk' => hinv k' (by
          obtain ⟨g', hg'⟩ := hk'
          exact ⟨g', List.mem_cons_of_mem _ hg'⟩))
      constructor
      · intro w' er h
        rw [hred] at h
        obtain ⟨k', g', hm, h1, h2, h3⟩ := ihA w' er h
        exact ⟨k', g', List.mem_cons_of_mem _ hm, h1, h2, h3⟩
      · intro w' cache h
        rw [hred] at h
        obtain ⟨ihKeys, ihCache, ihAttr⟩ := ihB w' cache h
        refine ⟨?_, ?_, ?_⟩
        · intro k₀ g₀ hk₀
          rcases List.mem_cons.mp hk₀ with heq | hmem
          · obtain ⟨rfl, rfl⟩ := Prod.mk.injEq .. ▸ heq
            constructor
            · intro _
              constructor
              · rw [ihAttr k₀ hknotin, hwk]
              · rw [ihCache k₀ hknotin]
                cases hv : getAttr w0 e k₀ with
                | some x => simp [hv, lookupA_insertA_self]
                | none => simp [hv, lookupA_eraseA_self]
            · intro hc
              rw [hg] at hc
              cases hc
          · exact ihKeys k₀ g₀ hmem
        · intro k₀ hk₀
          have hne : k₀ ≠ k := by
            intro hc
            exact hk₀ (by simp [hc])
          have hrest : k₀ ∉ rest.map Prod.fst := by
            intro hc
            exact hk₀ (by simp [hc])
          rw [ihCache k₀ hrest]
          cases hv : getAttr w0 e k₀ with
          | _ => cases hv2 : getAttr w0 e k with
            | some x => simp [hv2, lookupA_insertA_ne _ _ _ _ hne]
            | none => simp [hv2, lookupA_eraseA_ne _ _ _ hne]
        · intro k₀ hk₀
          have hrest : k₀ ∉ rest.map Prod.fst := by
            intro hc
            exact hk₀ (by simp [hc])
          exact ihAttr k₀ hrest
    · have hgf : g (getAttr w0 e k) = false := by
        cases hgv : g (getAttr w0 e k)
        · rfl
        · exact absurd hgv hg
      cases hd : lookupA info.defaults k with
      | some d =>
        -- guard fails, default configured: substitute and write back
        have hred : getAttributesGo info e w0 ((k, g) :: rest) w acc =
            getAttributesGo info e w0 rest (setAttr w e k d) (insertA acc k d) := by
          simp [getAttributesGo, hgf, hd]
        obtain ⟨ihA, ihB⟩ := ih (setAttr w e k d) (insertA acc k d) hndrest
          (fun k' hk' => by
            obtain ⟨g', hg'⟩ := hk'
            have hne : k' ≠ k := by
              intro hc
              subst hc
              exact hknotin (by simpa using List.mem_map_of_mem Prod.fst hg')
            rw [getAttr_setAttr_ne w e e k k' d (by simp [hne])]
            exact hinv k' ⟨g', List.mem_cons_of_mem _ hg'⟩)
        constructor
        · intro w' er h
          rw [hred] at h
          obtain ⟨k', g', hm, h1, h2, h3⟩ := ihA w' er h
          exact ⟨k', g', List.mem_cons_of_mem _ hm, h1, h2, h3⟩
        · intro w' cache h
          rw [hred] at h
          obtain ⟨ihKeys, ihCache, ihAttr⟩ := ihB w' cache h
          refine ⟨?_, ?_, ?_⟩
          · intro k₀ g₀ hk₀
            rcases List.mem_cons.mp hk₀ with heq | hmem
            · obtain ⟨rfl, rfl⟩ := Prod.mk.injEq .. ▸ heq
              constructor
              · intro hc
                rw [hgf] at hc
                cases hc
              · intro _
                refine ⟨d, hd, ?_, ?_⟩
                · rw [ihCache k₀ hknotin]
                  exact lookupA_insertA_self _ _ _
                · rw [ihAttr k₀ hknotin]
                  exact getAttr_setAttr_self _ _ _ _
            · exact ihKeys k₀ g₀ hmem
          · intro k₀ hk₀
            have hne : k₀ ≠ k := by
              intro hc
              exact hk₀ (by simp [hc])
            have hrest : k₀ ∉ rest.map Prod.fst := by
              intro hc
              exact hk₀ (by simp [hc])
            rw [ihCache k₀ hrest]
            exact lookupA_insertA_ne _ _ _ _ hne
          · intro k₀ hk₀
            have hne : k₀ ≠ k := by
              intro hc
              exact hk₀ (by simp [hc])
            have hrest : k₀ ∉ rest.map Prod.fst := by
              intro hc
              exact hk₀ (by simp [hc])
            rw [ihAttr k₀ hrest]
            exact getAttr_setAttr_ne w e e k k₀ d (by simp [hne])
      | none =>
        -- guard fails, no default: abort with InvalidAttribute
        have hred : getAttributesGo info e w0 ((k, g) :: rest) w acc =
            (w, .error (.invalidAttribute e k info.identifier)) := by
          simp [getAttributesGo, hgf, hd]
        constructor
        · intro w' er h
          rw [hred] at h
          obtain ⟨rfl, her⟩ := Prod.mk.injEq .. ▸ h
          refine ⟨k, g, List.mem_cons_self _ _, hgf, hd, ?_⟩
          cases her
          rfl
        · intro w' cache h
          rw [hred] at h
          obtain ⟨-, hc⟩ := Prod.mk.injEq .. ▸ h
          cases hc

/-- **C8**: during attach, for every declared attribute guard the entity's
current attribute value is read; a value failing its guard with a configured
default has the default substituted into the attribute cache and written back
onto the entity; a value failing its guard with no default aborts the entire
run with the invalid-attribute error naming the entity, the attribute and the
definition identifier (and a run that returns normally validated every
attribute this way). -/
theorem c8_attribute_validation (info : ComponentInfo) (w : World) (e : Nat)
    (hnd : (info.attributeGuards.map Prod.fst).Nodup) :
    (∀ w' er, getAttributesF info w e = (w', .error er) →
      ∃ k g, (k, g) ∈ info.attributeGuards ∧ g (getAttr w e k) = false ∧
        lookupA info.defaults k = none ∧ er = .invalidAttribute e k info.identifier) ∧
    (∀ w' cache, getAttributesF info w e = (w', .ok cache) →
      ∀ k g, (k, g) ∈ info.attributeGuards →
        (g (getAttr w e k) = true →
          getAttr w' e k = getAttr w e k ∧ lookupA cache k = getAttr w e k) ∧
        (g (getAttr w e k) = false →
          ∃ d, lookupA info.defaults k = some d ∧ lookupA cache k = some d ∧
            getAttr w' e k = some d)) := by
  obtain ⟨hA, hB⟩ := getAttributesGo_spec info e w info.attributeGuards w [] hnd
    (fun _ _ => rfl)
  exact ⟨hA, fun w' cache h => (hB w' cache h).1⟩

/-- Definition for the C8 witness: one guarded attribute `ammo` (must be
present) with configured default 0. -/
def infoC8w : ComponentInfo :=
  { identifier := "C", tag := none,
    attributeGuards := [("ammo", fun v => v.isSome)], defaults := [("ammo", 0)],
    instanceGuard := none, componentDependencies := [],
    ancestors := [], implements := [] }

theorem c8_witness :
    ∃ d, lookupA infoC8w.defaults "ammo" = some d ∧
      lookupA [("ammo", 0)] "ammo" = some d ∧
      getAttr { attrs := [((0, "ammo"), 0)], tagged := [], hasParent := [] } 0
        "ammo" = some d :=
  ((c8_attribute_validation infoC8w
      { attrs := [], tagged := [], hasParent := [] } 0 (by decide)).2
    { attrs := [((0, "ammo"), 0)], tagged := [], hasParent := [] } [("ammo", 0)]
    rfl "ammo" (fun v => v.isSome) (List.mem_cons_self _ _)).2 rfl

/-!
## Claims C3 and C10
-/

/-- The empty external world. -/
def emptyWorld : World := { attrs := [], tagged := [], hasParent := [] }

theorem lookupActive_isSome (st : State) (e c i : Nat)
    (h : lookupActive st e c = some i) : (lookupA st.active e).isSome := by
  unfold lookupActive at h
  cases hx : lookupA st.active e with
  | none =>
    rw [hx] at h
    simp [lookupA] at h
  | some _ => simp

theorem ensureEntries_self (st : State) (e : Nat)
    (h1 : (lookupA st.active e).isSome) (h2 : (lookupA st.inherited e).isSome) :
    ensureEntries st e = st := by
  unfold ensureEntries
  rw [if_pos h1, if_pos h2]

/-- Concrete registry for the C3 counterexample: definition `C` (ctor 1)
declares a construction-time dependency on definition `D` (ctor 2); `D` is
not tag-bound and not attached, so resolving it during construction fails. -/
def regC3 : Registry :=
  [(1, { identifier := "C", tag := none, attributeGuards := [], defaults := [],
         instanceGuard := none, componentDependencies := [2],
         ancestors := [], implements := [] }),
   (2, { identifier := "D", tag := none, attributeGuards := [], defaults := [],
         instanceGuard := none, componentDependencies := [],
         ancestors := [], implements := [] })]

/-- **C3** counterexample: `addComponent` raises `UnresolvedDependency`, yet
the failing call leaves partial index mutations behind — the new instance is
still registered in the active, inherited and reverse indices, because
registration happens before the construction body runs (two-phase
construction) and nothing rolls it back. -/
theorem c3_counterexample :
    (addComponentF 5 regC3 emptyState emptyWorld 0 1 false).2.2 =
      .error (.unresolvedDependency "D" "C" 0) ∧
    (addComponentF 5 regC3 emptyState emptyWorld 0 1 false).1.active ≠
      emptyState.active ∧
    (addComponentF 5 regC3 emptyState emptyWorld 0 1 false).1.inherited ≠
      emptyState.inherited ∧
    (addComponentF 5 regC3 emptyState emptyWorld 0 1 false).1.reverseMapping ≠
      emptyState.reverseMapping ∧
    lookupActive (addComponentF 5 regC3 emptyState emptyWorld 0 1 false).1 0 1 =
      some 0 := by
  decide

/-- **C3** (amended): the three validation errors — `UnknownDefinition`,
`InvalidAttribute`, `GuardRejected` — are raised synchronously by the attach
call's own validation phase, before any index mutation: the failing call
returns with the registry state exactly as it was (only attribute-default
write-backs on the entity may have happened).  `UnresolvedDependency`, by
contrast, is raised during the construction phase, after the instance was
registered into the active/inherited/reverse indices, and those registrations
remain (see the counterexample). -/
theorem c3_validation_no_mutation (fuel : Nat) (reg : Registry) (st : State)
    (w : World) (e c : Nat) (skip : Bool) :
    (lookupA reg c = none →
      addComponentF (fuel + 1) reg st w e c skip = (st, w, .error .unknownDefinition)) ∧
    (∀ info w' er, lookupA reg c = some info →
      getAttributesF info w e = (w', .error er) →
      addComponentF (fuel + 1) reg st w e c skip = (st, w', .error er)) ∧
    (∀ info w' cache, lookupA reg c = some info →
      getAttributesF info w e = (w', .ok cache) →
      skip = false → instanceGuardOk info e = false →
      addComponentF (fuel + 1) reg st w e c skip =
        (st, w', .error (.guardRejected e info.identifier))) := by
  refine ⟨?_, ?_, ?_⟩
  · intro h
    simp [addComponentF, h]
  · intro info w' er h1 h2
    simp [addComponentF, h1, h2]
  · intro info w' cache h1 h2 h3 h4
    subst h3
    simp [addComponentF, h1, h2, h4]

theorem c3_witness :
    addComponentF 1 [] emptyState emptyWorld 0 1 false =
      (emptyState, emptyWorld, .error .unknownDefinition) :=
  (c3_validation_no_mutation 0 [] emptyState emptyWorld 0 1 false).1 rfl

/-- **C10**: for an already-attached (entity, definition), a second attach
call still performs attribute validation before the idempotent return: the
whole `getAttributes` pass runs first — re-reading and re-guarding every
declared attribute, possibly writing configured defaults onto the entity
(the returned world is `getAttributes`' world) — and when it throws, the
attach call fails with that invalid-attribute error even though the component
stays attached; only when it succeeds is the existing instance returned. -/
theorem c10_attribute_revalidation (g : Nat) (reg : Registry) (st : State)
    (w : World) (e c : Nat) (info : ComponentInfo) (i : Nat)
    (hreg : lookupA reg c = some info)
    (hact : lookupActive st e c = some i)
    (hinh : (lookupA st.inherited e).isSome) :
    (∀ w' er, getAttributesF info w e = (w', .error er) →
      addComponentF (g + 1) reg st w e c true = (st, w', .error er)) ∧
    (∀ w' cache, getAttributesF info w e = (w', .ok cache) →
      addComponentF (g + 1) reg st w e c true = (st, w', .ok i)) := by
  constructor
  · intro w' er h2
    simp [addComponentF, hreg, h2]
  · intro w' cache h2
    have hens : ensureEntries st e = st :=
      ensureEntries_self st e (lookupActive_isSome st e c i hact) hinh
    simp [addComponentF, hreg, h2, hens, hact]

/-- Component `C` with one guarded attribute `k` (must be 10) and no default. -/
def infoC10 : ComponentInfo :=
  { identifier := "C", tag := none,
    attributeGuards := [("k", fun v => v == some 10)], defaults := [],
    instanceGuard := none, componentDependencies := [],
    ancestors := [], implements := [] }

/-- Registry/state/world where `C` is already attached to entity 0 but the
entity's attribute `k` has since become invalid. -/
def regC10 : Registry := [(1, infoC10)]

def stC10 : State :=
  { active := [(0, [(1, 0)])], inherited := [(0, [("C", [0])])],
    reverseMapping := [("C", [0])], waiters := [], trackedQualified := [],
    nextId := 1, constructedLog := [0], resolvedLog := [] }

def wC10 : World := { attrs := [((0, "k"), 3)], tagged := [], hasParent := [] }

theorem c10_witness :
    addComponentF 1 regC10 stC10 wC10 0 1 true =
      (stC10, wC10, .error (.invalidAttribute 0 "k" "C")) :=
  (c10_attribute_revalidation 0 regC10 stC10 wC10 0 1 infoC10 0 rfl rfl rfl).1
    wC10 (.invalidAttribute 0 "k" "C") (by decide)

/-!
## Claim C5
-/

/-- Tag-bound definition `E` (ctor 1) for the C5 counterexample. -/
def regC5 : Registry :=
  [(1, { identifier := "E", tag := some "T", attributeGuards := [], defaults := [],
         instanceGuard := none, componentDependencies := [],
         ancestors := [], implements := [] })]

/-- World for the C5 counterexample: entity 0 carries tag `T` but has no
`Parent`. -/
def wC5 : World := { attrs := [], tagged := [(0, "T")], hasParent := [] }

/-- **C5** counterexample: the definition is tag-bound, the entity qualifies
per the tracker's `checkInstance`, and no component is attached — yet
`getComponent` returns `undefined` and attaches nothing, because the eager
path additionally requires the entity to have a `Parent` (and to carry the
tag per CollectionService), conditions the claim omits. -/
theorem c5_counterexample :
    (lookupA regC5 1).map ComponentInfo.tag = some (some "T") ∧
    checkInstanceF 5 regC5 emptyState wC5 1 0 = true ∧
    lookupActive emptyState 0 1 = none ∧
    getComponentF 5 regC5 emptyState wC5 0 1 = (emptyState, wC5, .ok none) := by
  decide

/-- **C5** (amended): `getComponent` returns the exact active instance when
one is attached (with no state change); otherwise, whenever the definition is
registered and tag-bound **and the entity has a `Parent` and currently
carries the tag** and qualifies per the tracker's `checkInstance`, it runs
`addComponent` on the spot with the structural-guard recheck skipped
(returning its outcome, including its validation errors); in every other
case it returns absent with no state change. -/
theorem c5_get_component (fuel : Nat) (reg : Registry) (st : State) (w : World)
    (e c : Nat) :
    (∀ i, lookupActive st e c = some i →
      getComponentF (fuel + 1) reg st w e c = (st, w, .ok (some i))) ∧
    (lookupActive st e c = none →
      canCreateComponentEagerF (fuel + 1) reg st w c e = false →
      getComponentF (fuel + 1) reg st w e c = (st, w, .ok none)) ∧
    (lookupActive st e c = none →
      canCreateComponentEagerF (fuel + 1) reg st w c e = true →
      getComponentF (fuel + 1) reg st w e c =
        (match addComponentF fuel reg st w e c true with
          | (st', w', .error er) => (st', w', .error er)
          | (st', w', .ok i) => (st', w', .ok (some i)))) ∧
    (∀ info, lookupA reg c = some info →
      (canCreateComponentEagerF (fuel + 1) reg st w c e = true ↔
        ∃ tg, info.tag = some tg ∧ w.hasParent.contains e = true ∧
          w.tagged.contains (e, tg) = true ∧
          checkInstanceF (fuel + 1) reg st w c e = true)) := by
  refine ⟨?_, ?_, ?_, ?_⟩
  · intro i h
    simp [getComponentF, h]
  · intro h1 h2
    simp [getComponentF, h1, h2]
  · intro h1 h2
    simp [getComponentF, h1, h2]
  · intro info hreg
    unfold canCreateComponentEagerF
    rw [hreg]
    cases htag : info.tag with
    | none => simp [htag]
    | some tg =>
      simp only [htag]
      constructor
      · intro h
        refine ⟨tg, rfl, ?_, ?_, ?_⟩ <;> simp_all
      · rintro ⟨tg', htg', h1, h2, h3⟩
        have heq : tg = tg' := by
          injection htg'
        subst heq
        simp_all

/-- Definition `E` whose instance guard always fails, with the entity tracked
and cached as qualified: the eager path attaches anyway, because the guard
recheck is skipped. -/
def infoC5w : ComponentInfo :=
  { identifier := "E", tag := some "T", attributeGuards := [], defaults := [],
    instanceGuard := some (fun _ => false), componentDependencies := [],
    ancestors := ["Base"], implements := [] }

def regC5w : Registry := [(1, infoC5w)]

def wC5w : World := { attrs := [], tagged := [(0, "T")], hasParent := [0] }

def stC5w : State :=
  { active := [], inherited := [], reverseMapping := [], waiters := [],
    trackedQualified := [((1, 0), true)], nextId := 0,
    constructedLog := [], resolvedLog := [] }

theorem c5_witness :
    (getComponentF 3 regC5w stC5w wC5w 0 1 =
      (match addComponentF 2 regC5w stC5w wC5w 0 1 true with
        | (st', w', .error er) => (st', w', .error er)
        | (st', w', .ok i) => (st', w', .ok (some i)))) ∧
    lookupActive (getComponentF 3 regC5w stC5w wC5w 0 1).1 0 1 = some 0 ∧
    instanceGuardOk infoC5w 0 = false :=
  ⟨(c5_get_component 2 regC5w stC5w wC5w 0 1).2.2.1 rfl (by decide),
   by decide, by decide⟩

/-!
## Association-list bookkeeping lemmas

Used to track the waiter index (a two-level map of sets) through attach,
wait and cancel: sums of a measure over the values, nodup keys, membership.
-/

/-- Keys of an association list are duplicate-free. -/
def keysNodup {α β : Type} (l : List (α × β)) : Prop :=
  (l.map Prod.fst).Nodup

/-- Sum of a measure over the values of an association list. -/
def sumA {α β : Type} (l : List (α × β)) (g : β → Nat) : Nat :=
  (l.map (fun p => g p.2)).sum

theorem lookupA_eq_none {α β : Type} [DecidableEq α] (l : List (α × β)) (a : α) :
    lookupA l a = none ↔ a ∉ l.map Prod.fst := by
  induction l with
  | nil => simp [lookupA]
  | cons p rest ih =>
    obtain ⟨k, v⟩ := p
    simp only [lookupA, List.map_cons, List.mem_cons]
    by_cases hka : k = a
    · subst hka
      simp
    · rw [if_neg hka, ih]
      have hak : ¬ a = k := fun hc => hka hc.symm
      tauto

theorem eraseA_of_not_mem_keys {α β : Type} [DecidableEq α]
    (l : List (α × β)) (a : α) (h : a ∉ l.map Prod.fst) : eraseA l a = l := by
  induction l with
  | nil => rfl
  | cons p rest ih =>
    obtain ⟨k, v⟩ := p
    simp only [List.map_cons, List.mem_cons, not_or] at h
    have hka : k ≠ a := fun hc => h.1 hc.symm
    simp only [eraseA, List.filter_cons]
    rw [if_pos (by simpa using hka)]
    have hr := ih h.2
    simp only [eraseA] at hr
    rw [hr]

theorem mem_eraseA {α β : Type} [DecidableEq α]
    {l : List (α × β)} {a : α} {p : α × β} (h : p ∈ eraseA l a) : p ∈ l :=
  List.mem_of_mem_filter h

theorem mem_insertA {α β : Type} [DecidableEq α]
    {l : List (α × β)} {a : α} {b : β} {p : α × β} (h : p ∈ insertA l a b) :
    p ∈ l ∨ p = (a, b) := by
  induction l with
  | nil => simpa [insertA] using h
  | cons q rest ih =>
    obtain ⟨k, v⟩ := q
    by_cases hka : k = a
    · simp only [insertA, if_pos hka] at h
      rcases List.mem_cons.mp h with h | h
      · exact Or.inr h
      · exact Or.inl (List.mem_cons_of_mem _ h)
    · simp only [insertA, if_neg hka] at h
      rcases List.mem_cons.mp h with h | h
      · exact Or.inl (h ▸ List.mem_cons_self _ _)
      · rcases ih h with h | h
        · exact Or.inl (List.mem_cons_of_mem _ h)
        · exact Or.inr h

theorem keys_insertA {α β : Type} [DecidableEq α]
    (l : List (α × β)) (a a' : α) (b : β) :
    a' ∈ (insertA l a b).map Prod.fst ↔ a' ∈ l.map Prod.fst ∨ a' = a := by
  induction l with
  | nil => simp [insertA]
  | cons q rest ih =>
    obtain ⟨k, v⟩ := q
    by_cases hka : k = a
    · subst hka
      simp only [insertA, if_pos trivial, eq_self_iff_true, if_true,
        List.map_cons, List.mem_cons]
      tauto
    · simp only [insertA, if_neg hka, List.map_cons, List.mem_cons, ih]
      tauto

theorem keysNodup_insertA {α β : Type} [DecidableEq α]
    (l : List (α × β)) (a : α) (b : β) (h : keysNodup l) :
    keysNodup (insertA l a b) := by
  induction l with
  | nil => simp [keysNodup, insertA]
  | cons q rest ih =>
    obtain ⟨k, v⟩ := q
    unfold keysNodup at *
    simp only [List.map_cons, List.nodup_cons] at h
    by_cases hka : k = a
    · subst hka
      simpa [insertA, List.nodup_cons] using h
    · simp only [insertA, if_neg hka, List.map_cons, List.nodup_cons]
      refine ⟨?_, ih h.2⟩
      intro hc
      rcases (keys_insertA rest a k b).mp hc with hc | hc
      · exact h.1 hc
      · exact hka hc

theorem keysNodup_eraseA {α β : Type} [DecidableEq α]
    (l : List (α × β)) (a : α) (h : keysNodup l) : keysNodup (eraseA l a) := by
  unfold keysNodup at *
  have hsub : List.Sublist ((eraseA l a).map Prod.fst) (l.map Prod.fst) :=
    List.Sublist.map Prod.fst (List.filter_sublist l)
  exact h.sublist hsub

theorem sumA_erase {α β : Type} [DecidableEq α]
    (l : List (α × β)) (g : β → Nat) (a : α) (b : β)
    (hnd : keysNodup l) (h : lookupA l a = some b) :
    sumA l g = g b + sumA (eraseA l a) g := by
  induction l with
  | nil => simp [lookupA] at h
  | cons q rest ih =>
    obtain ⟨k, v⟩ := q
    unfold keysNodup at *
    simp only [List.map_cons, List.nodup_cons] at hnd
    by_cases hka : k = a
    · subst hka
      have hb : v = b := by
        simpa [lookupA] using h
      subst hb
      have hnk : k ∉ rest.map Prod.fst := hnd.1
      have herase : eraseA ((k, v) :: rest) k = rest := by
        have hr := eraseA_of_not_mem_keys rest k hnk
        simp only [eraseA, List.filter_cons] at *
        simpa using hr
      rw [herase]
      simp [sumA]
    · have h' : lookupA rest a = some b := by
        simpa [lookupA, hka] using h
      have : eraseA ((k, v) :: rest) a = (k, v) :: eraseA rest a := by
        simp only [eraseA, List.filter_cons]
        simp [hka]
      rw [this]
      simp only [sumA, List.map_cons, List.sum_cons]
      have hih := ih hnd.2 h'
      simp only [sumA] at hih
      omega

theorem sumA_insert_present {α β : Type} [DecidableEq α]
    (l : List (α × β)) (g : β → Nat) (a : α) (b b' : β)
    (hnd : keysNodup l) (h : lookupA l a = some b) :
    sumA (insertA l a b') g + g b = sumA l g + g b' := by
  induction l with
  | nil => simp [lookupA] at h
  | cons q rest ih =>
    obtain ⟨k, v⟩ := q
    unfold keysNodup at *
    simp only [List.map_cons, List.nodup_cons] at hnd
    by_cases hka : k = a
    · subst hka
      have hb : v = b := by
        simpa [lookupA] using h
      subst hb
      simp only [insertA, if_pos trivial, eq_self_iff_true, if_true, sumA,
        List.map_cons, List.sum_cons]
      omega
    · have h' : lookupA rest a = some b := by
        simpa [lookupA, hka] using h
      simp only [insertA, if_neg hka, sumA, List.map_cons, List.sum_cons]
      have := ih hnd.2 h'
      simp only [sumA] at this
      omega

theorem sumA_insert_absent {α β : Type} [DecidableEq α]
    (l : List (α × β)) (g : β → Nat) (a : α) (b' : β)
    (h : lookupA l a = none) :
    sumA (insertA l a b') g = sumA l g + g b' := by
  induction l with
  | nil => simp [insertA, sumA]
  | cons q rest ih =>
    obtain ⟨k, v⟩ := q
    by_cases hka : k = a
    · subst hka
      simp [lookupA] at h
    · have h' : lookupA rest a = none := by
        simpa [lookupA, hka] using h
      simp only [insertA, if_neg hka, sumA, List.map_cons, List.sum_cons]
      have := ih h'
      simp only [sumA] at this
      omega

/-!
## State-operation lemmas
-/

theorem countW_eq_sumA (st : State) (wid : Nat) :
    countW st wid = sumA st.waiters (fun iw => sumA iw (fun ws => ws.count wid)) :=
  rfl

/-- Well-formedness of the waiter index: both map levels have nodup keys
(Lua maps cannot hold a key twice). -/
def WaitersWF (st : State) : Prop :=
  keysNodup st.waiters ∧ ∀ p ∈ st.waiters, keysNodup p.2

/-- No empty waiter collection is left dangling. -/
def NoEmptyWaiters (st : State) : Prop :=
  ∀ p ∈ st.waiters, p.2 ≠ [] ∧ ∀ q ∈ p.2, q.2 ≠ []

instance {α β : Type} [DecidableEq α] (l : List (α × β)) :
    Decidable (keysNodup l) := by
  unfold keysNodup
  infer_instance

instance (st : State) : Decidable (WaitersWF st) := by
  unfold WaitersWF
  infer_instance

instance (st : State) : Decidable (NoEmptyWaiters st) := by
  unfold NoEmptyWaiters
  infer_instance

theorem lookupA_append {α β : Type} [DecidableEq α]
    (l l2 : List (α × β)) (a : α) :
    lookupA (l ++ l2) a =
      (match lookupA l a with
        | some b => some b
        | none => lookupA l2 a) := by
  induction l with
  | nil => simp [lookupA]
  | cons p rest ih =>
    obtain ⟨k, v⟩ := p
    by_cases hka : k = a <;> simp [lookupA, hka, ih]

theorem lookupA_insertA_isSome {α β : Type} [DecidableEq α]
    (l : List (α × β)) (a a' : α) (b : β) (h : (lookupA l a').isSome) :
    (lookupA (insertA l a b) a').isSome := by
  by_cases hx : a' = a
  · subst hx
    simp [lookupA_insertA_self]
  · rwa [lookupA_insertA_ne l a a' b hx]

theorem ensureEntries_fields (st : State) (e : Nat) :
    (ensureEntries st e).waiters = st.waiters ∧
    (ensureEntries st e).reverseMapping = st.reverseMapping ∧
    (ensureEntries st e).nextId = st.nextId ∧
    (ensureEntries st e).constructedLog = st.constructedLog ∧
    (ensureEntries st e).resolvedLog = st.resolvedLog :=
  ⟨rfl, rfl, rfl, rfl, rfl⟩

theorem ensureEntries_lookupActive (st : State) (e e' c' : Nat) :
    lookupActive (ensureEntries st e) e' c' = lookupActive st e' c' := by
  unfold lookupActive ensureEntries
  simp only
  by_cases h : (lookupA st.active e).isSome
  · rw [if_pos h]
  · rw [if_neg h]
    rw [lookupA_append]
    cases hx : lookupA st.active e' with
    | some acts => simp
    | none =>
      simp only
      by_cases he : e' = e
      · subst he
        simp [lookupA]
      · have hee : ¬ e = e' := fun hc => he hc.symm
        simp [lookupA, hee]

theorem ensureEntries_inherited_isSome (st : State) (e : Nat) :
    (lookupA (ensureEntries st e).inherited e).isSome := by
  unfold ensureEntries
  simp only
  by_cases h : (lookupA st.inherited e).isSome
  · rwa [if_pos h]
  · rw [if_neg h, lookupA_append]
    cases hx : lookupA st.inherited e with
    | some m => simp
    | none => simp [lookupA]

theorem ensureEntries_inherited_mono (st : State) (e e' : Nat)
    (h : (lookupA st.inherited e').isSome) :
    (lookupA (ensureEntries st e).inherited e').isSome := by
  unfold ensureEntries
  simp only
  by_cases hx : (lookupA st.inherited e).isSome
  · rwa [if_pos hx]
  · rw [if_neg hx, lookupA_append]
    cases hy : lookupA st.inherited e' with
    | some m => simp
    | none =>
      rw [hy] at h
      simp at h

theorem addIdMappingF_fields (st : State) (e i : Nat) (id : String) :
    (addIdMappingF st e i id).active = st.active ∧
    (addIdMappingF st e i id).waiters = st.waiters ∧
    (addIdMappingF st e i id).trackedQualified = st.trackedQualified ∧
    (addIdMappingF st e i id).nextId = st.nextId ∧
    (addIdMappingF st e i id).constructedLog = st.constructedLog ∧
    (addIdMappingF st e i id).resolvedLog = st.resolvedLog :=
  ⟨rfl, rfl, rfl, rfl, rfl, rfl⟩

theorem addIdMappingF_inherited_mono (st : State) (e i : Nat) (id : String)
    (e' : Nat) (h : (lookupA st.inherited e').isSome) :
    (lookupA (addIdMappingF st e i id).inherited e').isSome := by
  unfold addIdMappingF
  simp only
  exact lookupA_insertA_isSome _ _ _ _ h

theorem foldIdMappings_fields (ids : List String) (st : State) (e i : Nat) :
    (ids.foldl (fun s id => addIdMappingF s e i id) st).active = st.active ∧
    (ids.foldl (fun s id => addIdMappingF s e i id) st).waiters = st.waiters ∧
    (ids.foldl (fun s id => addIdMappingF s e i id) st).trackedQualified =
      st.trackedQualified ∧
    (ids.foldl (fun s id => addIdMappingF s e i id) st).nextId = st.nextId ∧
    (ids.foldl (fun s id => addIdMappingF s e i id) st).constructedLog =
      st.constructedLog ∧
    (ids.foldl (fun s id => addIdMappingF s e i id) st).resolvedLog =
      st.resolvedLog ∧
    (∀ e', (lookupA st.inherited e').isSome →
      (lookupA (ids.foldl (fun s id => addIdMappingF s e i id) st).inherited e').isSome) := by
  induction ids generalizing st with
  | nil => exact ⟨rfl, rfl, rfl, rfl, rfl, rfl, fun _ h => h⟩
  | cons id rest ih =>
    simp only [List.foldl_cons]
    obtain ⟨h1, h2, h3, h4, h5, h6, h7⟩ := ih (addIdMappingF st e i id)
    refine ⟨?_, ?_, ?_, ?_, ?_, ?_, ?_⟩
    · rw [h1]; exact (addIdMappingF_fields st e i id).1
    · rw [h2]; exact (addIdMappingF_fields st e i id).2.1
    · rw [h3]; exact (addIdMappingF_fields st e i id).2.2.1
    · rw [h4]; exact (addIdMappingF_fields st e i id).2.2.2.1
    · rw [h5]; exact (addIdMappingF_fields st e i id).2.2.2.2.1
    · rw [h6]; exact (addIdMappingF_fields st e i id).2.2.2.2.2
    · intro e' h
      exact h7 e' (addIdMappingF_inherited_mono st e i id e' h)

theorem lookupA_insertActive (acts : List (Nat × List (Nat × Nat)))
    (e c i e' c' : Nat) :
    lookupA ((lookupA (insertA acts e
        (insertA ((lookupA acts e).getD []) c i)) e').getD []) c' =
      (if e' = e ∧ c' = c then some i
       else lookupA ((lookupA acts e').getD []) c') := by
  by_cases he : e' = e
  · subst he
    rw [lookupA_insertA_self]
    simp only [Option.getD_some]
    by_cases hc : c' = c
    · subst hc
      rw [lookupA_insertA_self]
      simp
    · rw [lookupA_insertA_ne _ _ _ _ hc]
      simp [hc]
  · rw [lookupA_insertA_ne _ _ _ _ he]
    simp [he]

/-- Characterization of the registration phase. -/
theorem registerComponent_spec (st : State) (e c : Nat) (info : ComponentInfo) :
    (registerComponent st e c info).2 = st.nextId ∧
    (registerComponent st e c info).1.nextId = st.nextId + 1 ∧
    (registerComponent st e c info).1.constructedLog =
      st.constructedLog ++ [st.nextId] ∧
    (registerComponent st e c info).1.waiters = st.waiters ∧
    (registerComponent st e c info).1.resolvedLog = st.resolvedLog ∧
    lookupActive (registerComponent st e c info).1 e c = some st.nextId ∧
    (∀ e' c', ¬ (e' = e ∧ c' = c) →
      lookupActive (registerComponent st e c info).1 e' c' = lookupActive st e' c') ∧
    (∀ e', (lookupA st.inherited e').isSome →
      (lookupA (registerComponent st e c info).1.inherited e').isSome) := by
  obtain ⟨f1, f2, f3, f4, f5, f6, f7⟩ :=
    foldIdMappings_fields (idMappings info) (registerMid st e c) e st.nextId
  unfold registerComponent
  simp only
  refine ⟨trivial, ?_, ?_, ?_, ?_, ?_, ?_, ?_⟩
  · show (_ : State).nextId = st.nextId + 1
    rw [f4]
    rfl
  · show (_ : State).constructedLog ++ [st.nextId] = st.constructedLog ++ [st.nextId]
    rw [f5]
    rfl
  · show (_ : State).waiters = st.waiters
    rw [f2]
    rfl
  · show (_ : State).resolvedLog = st.resolvedLog
    rw [f6]
    rfl
  · show lookupA ((lookupA (_ : State).active e).getD []) c = some st.nextId
    rw [f1]
    show lookupA ((lookupA (registerMid st e c).active e).getD []) c = some st.nextId
    unfold registerMid
    simp only
    rw [lookupA_insertActive]
    simp
  · intro e' c' hne
    show lookupA ((lookupA (_ : State).active e').getD []) c' = _
    rw [f1]
    show lookupA ((lookupA (registerMid st e c).active e').getD []) c' = _
    unfold registerMid
    simp only
    rw [lookupA_insertActive, if_neg hne]
    rfl
  · intro e' h
    exact f7 e' h

theorem lookupA_mem {α β : Type} [DecidableEq α] {l : List (α × β)} {a : α}
    {b : β} (h : lookupA l a = some b) : (a, b) ∈ l := by
  induction l with
  | nil => simp [lookupA] at h
  | cons p rest ih =>
    obtain ⟨k, v⟩ := p
    by_cases hka : k = a
    · subst hka
      have : v = b := by simpa [lookupA] using h
      subst this
      exact List.mem_cons_self _ _
    · have h' : lookupA rest a = some b := by simpa [lookupA, hka] using h
      exact List.mem_cons_of_mem _ (ih h')

theorem lookupA_of_eraseA_nil {α β : Type} [DecidableEq α]
    (l : List (α × β)) (a a' : α) (he : eraseA l a = []) (h : a' ≠ a) :
    lookupA l a' = none := by
  induction l with
  | nil => rfl
  | cons p rest ih =>
    obtain ⟨k, v⟩ := p
    by_cases hka : k = a
    · subst hka
      have hrest : eraseA rest k = [] := by
        simpa [eraseA, List.filter_cons] using he
      have hka' : ¬ k = a' := fun hc => h hc.symm
      simp only [lookupA, if_neg hka']
      exact ih hrest
    · exfalso
      have : (k, v) ∈ eraseA ((k, v) :: rest) a := by
        simp [eraseA, List.filter_cons, hka]
      rw [he] at this
      simp at this

theorem insertA_isEmpty_false {α β : Type} [DecidableEq α]
    (l : List (α × β)) (a : α) (b : β) : (insertA l a b).isEmpty = false := by
  cases l with
  | nil => rfl
  | cons p rest =>
    obtain ⟨k, v⟩ := p
    by_cases hka : k = a <;> simp [insertA, hka]

theorem resolveWaiters_fields (st : State) (e c i : Nat) :
    (resolveWaiters st e c i).active = st.active ∧
    (resolveWaiters st e c i).inherited = st.inherited ∧
    (resolveWaiters st e c i).reverseMapping = st.reverseMapping ∧
    (resolveWaiters st e c i).trackedQualified = st.trackedQualified ∧
    (resolveWaiters st e c i).nextId = st.nextId ∧
    (resolveWaiters st e c i).constructedLog = st.constructedLog ∧
    (resolveWaiters st e c i).resolvedLog =
      st.resolvedLog ++ (lookupWaitersList st e c).map (fun wid => (wid, i)) := by
  cases hws : lookupA ((lookupA st.waiters e).getD []) c with
  | none =>
    have hl : lookupWaitersList st e c = [] := by
      simp [lookupWaitersList, hws]
    simp only [resolveWaiters, hws]
    simp [hl]
  | some ws =>
    have hl : lookupWaitersList st e c = ws := by
      simp [lookupWaitersList, hws]
    simp only [resolveWaiters, hws]
    simp [hl]

theorem resolveWaiters_outer (st : State) (e c : Nat) (ws : List Nat)
    (hws : lookupA ((lookupA st.waiters e).getD []) c = some ws) :
    ∃ iw, lookupA st.waiters e = some iw ∧ lookupA iw c = some ws := by
  cases hx : lookupA st.waiters e with
  | none =>
    rw [hx] at hws
    simp [lookupA] at hws
  | some iw =>
    rw [hx] at hws
    exact ⟨iw, rfl, by simpa using hws⟩

theorem resolveWaiters_wt (st : State) (e c i : Nat) (iw : List (Nat × List Nat))
    (ws : List Nat)
    (hws : lookupA ((lookupA st.waiters e).getD []) c = some ws)
    (hiw : lookupA st.waiters e = some iw)
    (hiwc : lookupA iw c = some ws) :
    (resolveWaiters st e c i).waiters =
      (if (eraseA iw c).isEmpty then eraseA st.waiters e
       else insertA st.waiters e (eraseA iw c)) := by
  simp only [resolveWaiters, hws, hiw, Option.getD_some, hiwc]

theorem resolveWaiters_waiters (st : State) (e c i : Nat) :
    (∀ e' c', ¬ (e' = e ∧ c' = c) →
      lookupWaitersList (resolveWaiters st e c i) e' c' = lookupWaitersList st e' c') ∧
    lookupWaitersList (resolveWaiters st e c i) e c = [] := by
  cases hws : lookupA ((lookupA st.waiters e).getD []) c with
  | none =>
    have hred : resolveWaiters st e c i = st := by
      simp only [resolveWaiters, hws]
    rw [hred]
    exact ⟨fun _ _ _ => rfl, by simp [lookupWaitersList, hws]⟩
  | some ws =>
    obtain ⟨iw, hiw, hiwc⟩ := resolveWaiters_outer st e c ws hws
    have hwt := resolveWaiters_wt st e c i iw ws hws hiw hiwc
    constructor
    · intro e' c' hne
      unfold lookupWaitersList
      rw [hwt]
      by_cases hemp : (eraseA iw c).isEmpty
      · have hnil : eraseA iw c = [] := List.isEmpty_iff.mp hemp
        rw [if_pos hemp]
        by_cases he : e' = e
        · have hc : ¬ c' = c := fun hc => hne ⟨he, hc⟩
          rw [he, lookupA_eraseA_self, hiw]
          simp [lookupA, lookupA_of_eraseA_nil iw c c' hnil hc]
        · rw [lookupA_eraseA_ne _ _ _ he]
      · rw [if_neg hemp]
        by_cases he : e' = e
        · have hc : ¬ c' = c := fun hc => hne ⟨he, hc⟩
          rw [he, lookupA_insertA_self, hiw]
          simp only [Option.getD_some]
          rw [lookupA_eraseA_ne _ _ _ hc]
        · rw [lookupA_insertA_ne _ _ _ _ he]
    · unfold lookupWaitersList
      rw [hwt]
      by_cases hemp : (eraseA iw c).isEmpty
      · rw [if_pos hemp, lookupA_eraseA_self]
        rfl
      · rw [if_neg hemp, lookupA_insertA_self]
        simp [lookupA_eraseA_self]

theorem resolveWaiters_wf (st : State) (e c i : Nat) (h : WaitersWF st) :
    WaitersWF (resolveWaiters st e c i) := by
  cases hws : lookupA ((lookupA st.waiters e).getD []) c with
  | none =>
    have hred : resolveWaiters st e c i = st := by
      simp only [resolveWaiters, hws]
    rw [hred]
    exact h
  | some ws =>
    obtain ⟨iw, hiw, hiwc⟩ := resolveWaiters_outer st e c ws hws
    have hwt := resolveWaiters_wt st e c i iw ws hws hiw hiwc
    obtain ⟨h1, h2⟩ := h
    constructor
    · show keysNodup (resolveWaiters st e c i).waiters
      rw [hwt]
      by_cases hemp : (eraseA iw c).isEmpty
      · rw [if_pos hemp]
        exact keysNodup_eraseA _ _ h1
      · rw [if_neg hemp]
        exact keysNodup_insertA _ _ _ h1
    · show ∀ p ∈ (resolveWaiters st e c i).waiters, keysNodup p.2
      rw [hwt]
      by_cases hemp : (eraseA iw c).isEmpty
      · rw [if_pos hemp]
        intro p hp
        exact h2 p (mem_eraseA hp)
      · rw [if_neg hemp]
        intro p hp
        rcases mem_insertA hp with hp | hp
        · exact h2 p hp
        · subst hp
          exact keysNodup_eraseA _ _ (h2 (e, iw) (lookupA_mem hiw))

theorem resolveWaiters_count (st : State) (e c i : Nat) (h : WaitersWF st)
    (wid : Nat) :
    countW (resolveWaiters st e c i) wid + (lookupWaitersList st e c).count wid =
      countW st wid := by
  cases hws : lookupA ((lookupA st.waiters e).getD []) c with
  | none =>
    have hred : resolveWaiters st e c i = st := by
      simp only [resolveWaiters, hws]
    rw [hred]
    simp [lookupWaitersList, hws]
  | some ws =>
    obtain ⟨iw, hiw, hiwc⟩ := resolveWaiters_outer st e c ws hws
    have hwt := resolveWaiters_wt st e c i iw ws hws hiw hiwc
    have hl : lookupWaitersList st e c = ws := by
      simp [lookupWaitersList, hws]
    obtain ⟨h1, h2⟩ := h
    have hinner : keysNodup iw := h2 (e, iw) (lookupA_mem hiw)
    have houter : sumA st.waiters (fun iw₀ => sumA iw₀ (fun l => l.count wid)) =
        sumA iw (fun l => l.count wid) +
          sumA (eraseA st.waiters e) (fun iw₀ => sumA iw₀ (fun l => l.count wid)) :=
      sumA_erase st.waiters _ e iw h1 hiw
    have hinner2 : sumA iw (fun l => l.count wid) =
        ws.count wid + sumA (eraseA iw c) (fun l => l.count wid) :=
      sumA_erase iw _ c ws hinner hiwc
    have hcw : countW (resolveWaiters st e c i) wid =
        sumA (resolveWaiters st e c i).waiters
          (fun iw₀ => sumA iw₀ (fun l => l.count wid)) := rfl
    rw [hl, hcw, hwt]
    by_cases hemp : (eraseA iw c).isEmpty
    · have hnil : eraseA iw c = [] := List.isEmpty_iff.mp hemp
      rw [if_pos hemp]
      have hz : sumA (eraseA iw c) (fun l => l.count wid) = 0 := by
        rw [hnil]
        rfl
      show sumA (eraseA st.waiters e) (fun iw₀ => sumA iw₀ (fun l => l.count wid)) +
          ws.count wid =
        countW st wid
      rw [countW_eq_sumA]
      omega
    · rw [if_neg hemp]
      have hins : sumA (insertA st.waiters e (eraseA iw c))
            (fun iw₀ => sumA iw₀ (fun l => l.count wid)) +
          sumA iw (fun l => l.count wid) =
        sumA st.waiters (fun iw₀ => sumA iw₀ (fun l => l.count wid)) +
          sumA (eraseA iw c) (fun l => l.count wid) :=
        sumA_insert_present st.waiters
          (fun iw₀ => sumA iw₀ (fun l => l.count wid)) e iw (eraseA iw c) h1 hiw
      show sumA (insertA st.waiters e (eraseA iw c))
          (fun iw₀ => sumA iw₀ (fun l => l.count wid)) + ws.count wid =
        countW st wid
      rw [countW_eq_sumA]
      omega

theorem cancelWaiterF_fields (st : State) (e c wid : Nat) :
    (cancelWaiterF st e c wid).active = st.active ∧
    (cancelWaiterF st e c wid).inherited = st.inherited ∧
    (cancelWaiterF st e c wid).reverseMapping = st.reverseMapping ∧
    (cancelWaiterF st e c wid).nextId = st.nextId ∧
    (cancelWaiterF st e c wid).constructedLog = st.constructedLog ∧
    (cancelWaiterF st e c wid).resolvedLog = st.resolvedLog := by
  cases hiw : lookupA st.waiters e with
  | none =>
    have hred : cancelWaiterF st e c wid = st := by
      simp only [cancelWaiterF, hiw]
    rw [hred]
    exact ⟨rfl, rfl, rfl, rfl, rfl, rfl⟩
  | some iw =>
    cases hiwc : lookupA iw c with
    | none =>
      have hred : cancelWaiterF st e c wid = st := by
        simp only [cancelWaiterF, hiw, hiwc]
      rw [hred]
      exact ⟨rfl, rfl, rfl, rfl, rfl, rfl⟩
    | some ws =>
      refine ⟨?_, ?_, ?_, ?_, ?_, ?_⟩ <;> simp only [cancelWaiterF, hiw, hiwc]

theorem cancelWaiterF_wt (st : State) (e c wid : Nat)
    (iw : List (Nat × List Nat)) (ws : List Nat)
    (hiw : lookupA st.waiters e = some iw) (hiwc : lookupA iw c = some ws) :
    (cancelWaiterF st e c wid).waiters =
      (if (if (ws.erase wid).isEmpty then eraseA iw c
           else insertA iw c (ws.erase wid)).isEmpty then
        eraseA st.waiters e
      else
        insertA st.waiters e
          (if (ws.erase wid).isEmpty then eraseA iw c
           else insertA iw c (ws.erase wid))) := by
  simp only [cancelWaiterF, hiw, hiwc]

theorem cancelWaiterF_waiters (st : State) (e c wid : Nat) :
    (∀ e' c', ¬ (e' = e ∧ c' = c) →
      lookupWaitersList (cancelWaiterF st e c wid) e' c' = lookupWaitersList st e' c') ∧
    lookupWaitersList (cancelWaiterF st e c wid) e c =
      (lookupWaitersList st e c).erase wid := by
  cases hiw : lookupA st.waiters e with
  | none =>
    have hred : cancelWaiterF st e c wid = st := by
      simp only [cancelWaiterF, hiw]
    rw [hred]
    exact ⟨fun _ _ _ => rfl, by simp [lookupWaitersList, hiw, lookupA]⟩
  | some iw =>
    cases hiwc : lookupA iw c with
    | none =>
      have hred : cancelWaiterF st e c wid = st := by
        simp only [cancelWaiterF, hiw, hiwc]
      rw [hred]
      refine ⟨fun _ _ _ => rfl, ?_⟩
      simp [lookupWaitersList, hiw, hiwc]
    | some ws =>
      have hwt := cancelWaiterF_wt st e c wid iw ws hiw hiwc
      have hl : lookupWaitersList st e c = ws := by
        simp [lookupWaitersList, hiw, hiwc]
      constructor
      · intro e' c' hne
        unfold lookupWaitersList
        rw [hwt]
        by_cases hemp : (if (ws.erase wid).isEmpty then eraseA iw c
            else insertA iw c (ws.erase wid)).isEmpty
        · rw [if_pos hemp]
          by_cases hwse : (ws.erase wid).isEmpty
          · rw [if_pos hwse] at hemp
            have hnil : eraseA iw c = [] := List.isEmpty_iff.mp hemp
            by_cases he : e' = e
            · have hc : ¬ c' = c := fun hc => hne ⟨he, hc⟩
              rw [he, lookupA_eraseA_self, hiw]
              simp [lookupA, lookupA_of_eraseA_nil iw c c' hnil hc]
            · rw [lookupA_eraseA_ne _ _ _ he]
          · rw [if_neg hwse] at hemp
            rw [insertA_isEmpty_false] at hemp
            cases hemp
        · rw [if_neg hemp]
          by_cases he : e' = e
          · have hc : ¬ c' = c := fun hc => hne ⟨he, hc⟩
            rw [he, lookupA_insertA_self, hiw]
            simp only [Option.getD_some]
            by_cases hwse : (ws.erase wid).isEmpty
            · rw [if_pos hwse, lookupA_eraseA_ne _ _ _ hc]
            · rw [if_neg hwse, lookupA_insertA_ne _ _ _ _ hc]
          · rw [lookupA_insertA_ne _ _ _ _ he]
      · unfold lookupWaitersList
        rw [hwt, hiw]
        simp only [Option.getD_some, hiwc]
        by_cases hemp : (if (ws.erase wid).isEmpty then eraseA iw c
            else insertA iw c (ws.erase wid)).isEmpty
        · rw [if_pos hemp]
          by_cases hwse : (ws.erase wid).isEmpty
          · rw [lookupA_eraseA_self]
            simp [List.isEmpty_iff.mp hwse, lookupA]
          · rw [if_neg hwse] at hemp
            rw [insertA_isEmpty_false] at hemp
            cases hemp
        · rw [if_neg hemp, lookupA_insertA_self]
          simp only [Option.getD_some]
          by_cases hwse : (ws.erase wid).isEmpty
          · rw [if_pos hwse, lookupA_eraseA_self]
            simp [List.isEmpty_iff.mp hwse, lookupA]
          · rw [if_neg hwse, lookupA_insertA_self]
            simp

theorem cancelWaiterF_wf (st : State) (e c wid : Nat) (h : WaitersWF st) :
    WaitersWF (cancelWaiterF st e c wid) := by
  cases hiw : lookupA st.waiters e with
  | none =>
    have hred : cancelWaiterF st e c wid = st := by
      simp only [cancelWaiterF, hiw]
    rw [hred]
    exact h
  | some iw =>
    cases hiwc : lookupA iw c with
    | none =>
      have hred : cancelWaiterF st e c wid = st := by
        simp only [cancelWaiterF, hiw, hiwc]
      rw [hred]
      exact h
    | some ws =>
      have hwt := cancelWaiterF_wt st e c wid iw ws hiw hiwc
      obtain ⟨h1, h2⟩ := h
      have hiwnd : keysNodup iw := h2 (e, iw) (lookupA_mem hiw)
      have hinnerOK : keysNodup (if (ws.erase wid).isEmpty then eraseA iw c
          else insertA iw c (ws.erase wid)) := by
        by_cases hwse : (ws.erase wid).isEmpty
        · rw [if_pos hwse]
          exact keysNodup_eraseA _ _ hiwnd
        · rw [if_neg hwse]
          exact keysNodup_insertA _ _ _ hiwnd
      constructor
      · show keysNodup (cancelWaiterF st e c wid).waiters
        rw [hwt]
        by_cases hemp : (if (ws.erase wid).isEmpty then eraseA iw c
            else insertA iw c (ws.erase wid)).isEmpty
        · rw [if_pos hemp]
          exact keysNodup_eraseA _ _ h1
        · rw [if_neg hemp]
          exact keysNodup_insertA _ _ _ h1
      · show ∀ p ∈ (cancelWaiterF st e c wid).waiters, keysNodup p.2
        rw [hwt]
        by_cases hemp : (if (ws.erase wid).isEmpty then eraseA iw c
            else insertA iw c (ws.erase wid)).isEmpty
        · rw [if_pos hemp]
          intro p hp
          exact h2 p (mem_eraseA hp)
        · rw [if_neg hemp]
          intro p hp
          rcases mem_insertA hp with hp | hp
          · exact h2 p hp
          · subst hp
            exact hinnerOK

theorem cancelWaiterF_noempty (st : State) (e c wid : Nat)
    (h : NoEmptyWaiters st) : NoEmptyWaiters (cancelWaiterF st e c wid) := by
  cases hiw : lookupA st.waiters e with
  | none =>
    have hred : cancelWaiterF st e c wid = st := by
      simp only [cancelWaiterF, hiw]
    rw [hred]
    exact h
  | some iw =>
    cases hiwc : lookupA iw c with
    | none =>
      have hred : cancelWaiterF st e c wid = st := by
        simp only [cancelWaiterF, hiw, hiwc]
      rw [hred]
      exact h
    | some ws =>
      have hwt := cancelWaiterF_wt st e c wid iw ws hiw hiwc
      have hiwmem : (e, iw) ∈ st.waiters := lookupA_mem hiw
      intro p hp
      have hp' : p ∈ (cancelWaiterF st e c wid).waiters := hp
      rw [hwt] at hp'
      by_cases hemp : (if (ws.erase wid).isEmpty then eraseA iw c
          else insertA iw c (ws.erase wid)).isEmpty
      · rw [if_pos hemp] at hp'
        exact h p (mem_eraseA hp')
      · rw [if_neg hemp] at hp'
        rcases mem_insertA hp' with hp' | hp'
        · exact h p hp'
        · subst hp'
          refine ⟨by simpa [List.isEmpty_iff] using hemp, ?_⟩
          intro q hq
          by_cases hwse : (ws.erase wid).isEmpty
          · rw [if_pos hwse] at hq
            exact (h (e, iw) hiwmem).2 q (mem_eraseA hq)
          · rw [if_neg hwse] at hq
            rcases mem_insertA hq with hq | hq
            · exact (h (e, iw) hiwmem).2 q hq
            · subst hq
              simpa [List.isEmpty_iff] using hwse

theorem cancelWaiterF_count (st : State) (e c wid : Nat) (h : WaitersWF st)
    (wid' : Nat) :
    countW (cancelWaiterF st e c wid) wid' + (lookupWaitersList st e c).count wid' =
      countW st wid' + ((lookupWaitersList st e c).erase wid).count wid' := by
  cases hiw : lookupA st.waiters e with
  | none =>
    have hred : cancelWaiterF st e c wid = st := by
      simp only [cancelWaiterF, hiw]
    rw [hred]
    simp [lookupWaitersList, hiw, lookupA]
  | some iw =>
    cases hiwc : lookupA iw c with
    | none =>
      have hred : cancelWaiterF st e c wid = st := by
        simp only [cancelWaiterF, hiw, hiwc]
      rw [hred]
      simp [lookupWaitersList, hiw, hiwc]
    | some ws =>
      have hwt := cancelWaiterF_wt st e c wid iw ws hiw hiwc
      have hl : lookupWaitersList st e c = ws := by
        simp [lookupWaitersList, hiw, hiwc]
      obtain ⟨h1, h2⟩ := h
      have hiwnd : keysNodup iw := h2 (e, iw) (lookupA_mem hiw)
      have houter : sumA st.waiters (fun iw₀ => sumA iw₀ (fun l => l.count wid')) =
          sumA iw (fun l => l.count wid') +
            sumA (eraseA st.waiters e) (fun iw₀ => sumA iw₀ (fun l => l.count wid')) :=
        sumA_erase st.waiters _ e iw h1 hiw
      have hinner2 : sumA iw (fun l => l.count wid') =
          ws.count wid' + sumA (eraseA iw c) (fun l => l.count wid') :=
        sumA_erase iw _ c ws hiwnd hiwc
      have hcw : countW (cancelWaiterF st e c wid) wid' =
          sumA (cancelWaiterF st e c wid).waiters
            (fun iw₀ => sumA iw₀ (fun l => l.count wid')) := rfl
      rw [hl, hcw, hwt, countW_eq_sumA]
      by_cases hwse : (ws.erase wid).isEmpty
      · have hwnil : ws.erase wid = [] := List.isEmpty_iff.mp hwse
        rw [if_pos hwse]
        by_cases hemp : (eraseA iw c).isEmpty
        · rw [if_pos hemp]
          have hz : sumA (eraseA iw c) (fun l => l.count wid') = 0 := by
            rw [List.isEmpty_iff.mp hemp]
            rfl
          rw [hwnil]
          simp only [List.count_nil]
          omega
        · rw [if_neg hemp]
          have hins : sumA (insertA st.waiters e (eraseA iw c))
                (fun iw₀ => sumA iw₀ (fun l => l.count wid')) +
              sumA iw (fun l => l.count wid') =
            sumA st.waiters (fun iw₀ => sumA iw₀ (fun l => l.count wid')) +
              sumA (eraseA iw c) (fun l => l.count wid') :=
            sumA_insert_present st.waiters _ e iw (eraseA iw c) h1 hiw
          rw [hwnil]
          simp only [List.count_nil]
          omega
      · rw [if_neg hwse, insertA_isEmpty_false]
        simp only [Bool.false_eq_true, if_false]
        have hinsInner : sumA (insertA iw c (ws.erase wid)) (fun l => l.count wid') +
            ws.count wid' =
          sumA iw (fun l => l.count wid') + (ws.erase wid).count wid' :=
          sumA_insert_present iw _ c ws (ws.erase wid) hiwnd hiwc
        have hins : sumA (insertA st.waiters e (insertA iw c (ws.erase wid)))
              (fun iw₀ => sumA iw₀ (fun l => l.count wid')) +
            sumA iw (fun l => l.count wid') =
          sumA st.waiters (fun iw₀ => sumA iw₀ (fun l => l.count wid')) +
            sumA (insertA iw c (ws.erase wid)) (fun l => l.count wid') :=
          sumA_insert_present st.waiters _ e iw (insertA iw c (ws.erase wid)) h1 hiw
        omega

/-- Count accounting of a waiter-set registration (the `waitForComponent`
pending path replaces the set at `(e, c)` by `ws'`). -/
theorem countW_insertWaiter (st : State) (e c : Nat) (ws' : List Nat)
    (h : WaitersWF st) (wid' : Nat) :
    countW { st with waiters := (insertA st.waiters e
        (insertA ((lookupA st.waiters e).getD []) c ws')) } wid' +
      (lookupWaitersList st e c).count wid' =
    countW st wid' + ws'.count wid' := by
  obtain ⟨h1, h2⟩ := h
  cases hiw : lookupA st.waiters e with
  | none =>
    have hl : lookupWaitersList st e c = [] := by
      simp [lookupWaitersList, hiw, lookupA]
    rw [hl]
    simp only [hiw, Option.getD_none, List.count_nil]
    have houter : sumA (insertA st.waiters e (insertA [] c ws'))
          (fun iw₀ => sumA iw₀ (fun l => l.count wid')) =
        sumA st.waiters (fun iw₀ => sumA iw₀ (fun l => l.count wid')) +
          sumA (insertA ([] : List (Nat × List Nat)) c ws') (fun l => l.count wid') :=
      sumA_insert_absent st.waiters _ e _ ((lookupA_eq_none st.waiters e).mpr
        (by rw [← lookupA_eq_none, hiw]))
    have hz : sumA (insertA ([] : List (Nat × List Nat)) c ws')
        (fun l => l.count wid') = ws'.count wid' := by
      simp [insertA, sumA]
    show sumA (insertA st.waiters e (insertA [] c ws'))
        (fun iw₀ => sumA iw₀ (fun l => l.count wid')) + 0 =
      countW st wid' + ws'.count wid'
    rw [countW_eq_sumA]
    omega
  | some iw =>
    simp only [hiw, Option.getD_some]
    have hins : sumA (insertA st.waiters e (insertA iw c ws'))
          (fun iw₀ => sumA iw₀ (fun l => l.count wid')) +
        sumA iw (fun l => l.count wid') =
      sumA st.waiters (fun iw₀ => sumA iw₀ (fun l => l.count wid')) +
        sumA (insertA iw c ws') (fun l => l.count wid') :=
      sumA_insert_present st.waiters _ e iw (insertA iw c ws') h1 hiw
    have hiwnd : keysNodup iw := h2 (e, iw) (lookupA_mem hiw)
    cases hiwc : lookupA iw c with
    | none =>
      have hl : lookupWaitersList st e c = [] := by
        simp [lookupWaitersList, hiw, hiwc]
      rw [hl]
      have hinsInner : sumA (insertA iw c ws') (fun l => l.count wid') =
          sumA iw (fun l => l.count wid') + ws'.count wid' :=
        sumA_insert_absent iw _ c ws' hiwc
      show sumA (insertA st.waiters e (insertA iw c ws'))
          (fun iw₀ => sumA iw₀ (fun l => l.count wid')) + ([] : List Nat).count wid' =
        countW st wid' + ws'.count wid'
      rw [countW_eq_sumA]
      simp only [List.count_nil]
      omega
    | some ws =>
      have hl : lookupWaitersList st e c = ws := by
        simp [lookupWaitersList, hiw, hiwc]
      rw [hl]
      have hinsInner : sumA (insertA iw c ws') (fun l => l.count wid') +
          ws.count wid' =
        sumA iw (fun l => l.count wid') + ws'.count wid' :=
        sumA_insert_present iw _ c ws ws' hiwnd hiwc
      show sumA (insertA st.waiters e (insertA iw c ws'))
          (fun iw₀ => sumA iw₀ (fun l => l.count wid')) + ws.count wid' =
        countW st wid' + ws'.count wid'
      rw [countW_eq_sumA]
      omega

/-- The waiter-set registration preserves well-formed keys. -/
theorem wf_insertWaiter (st : State) (e c : Nat) (ws' : List Nat)
    (h : WaitersWF st) :
    WaitersWF { st with waiters := (insertA st.waiters e
        (insertA ((lookupA st.waiters e).getD []) c ws')) } := by
  obtain ⟨h1, h2⟩ := h
  constructor
  · exact keysNodup_insertA _ _ _ h1
  · intro p hp
    rcases mem_insertA hp with hp | hp
    · exact h2 p hp
    · subst hp
      cases hiw : lookupA st.waiters e with
      | none => simp [insertA, keysNodup]
      | some iw =>
        simp only [hiw, Option.getD_some]
        exact keysNodup_insertA _ _ _ (h2 (e, iw) (lookupA_mem hiw))

/-!
## The extension relation of one registry operation

The attach/get/dependency-resolution operations only ever grow the registry
state: active entries are never removed, inherited entity entries stay
present, the instance-id counter grows, the construction log is extended with
fresh ids only, the waiter sets of pairs that were already attached at entry
are untouched, and (under well-formed waiter keys) every pending waiter is
either still pending or was resolved — never duplicated or dropped.
-/

def Extends (st st' : State) : Prop :=
  (∀ e c j, lookupActive st e c = some j → lookupActive st' e c = some j) ∧
  (∀ e, (lookupA st.inherited e).isSome → (lookupA st'.inherited e).isSome) ∧
  st.nextId ≤ st'.nextId ∧
  (∃ L, st'.constructedLog = st.constructedLog ++ L ∧
    ∀ x ∈ L, st.nextId ≤ x ∧ x < st'.nextId) ∧
  (∀ e c, (lookupActive st e c).isSome →
    lookupWaitersList st' e c = lookupWaitersList st e c) ∧
  (∃ dr, st'.resolvedLog = st.resolvedLog ++ dr ∧
    (WaitersWF st →
      WaitersWF st' ∧
      ∀ wid, countW st' wid + (dr.map Prod.fst).count wid = countW st wid))

theorem extendsRefl (st : State) : Extends st st :=
  ⟨fun _ _ _ h => h, fun _ h => h, le_refl _,
   ⟨[], by simp, by simp⟩, fun _ _ _ => rfl,
   ⟨[], by simp, fun hw => ⟨hw, fun wid => by simp⟩⟩⟩

theorem extendsTrans {s1 s2 s3 : State} (h12 : Extends s1 s2)
    (h23 : Extends s2 s3) : Extends s1 s3 := by
  obtain ⟨a12, i12, n12, ⟨L1, cl1, b1⟩, w12, ⟨d1, r1, c1⟩⟩ := h12
  obtain ⟨a23, i23, n23, ⟨L2, cl2, b2⟩, w23, ⟨d2, r2, c2⟩⟩ := h23
  refine ⟨fun e c j h => a23 e c j (a12 e c j h),
    fun e h => i23 e (i12 e h), le_trans n12 n23,
    ⟨L1 ++ L2, by rw [cl2, cl1, List.append_assoc], ?_⟩,
    fun e c h => ?_, ⟨d1 ++ d2, by rw [r2, r1, List.append_assoc], ?_⟩⟩
  · intro x hx
    rcases List.mem_append.mp hx with hx | hx
    · exact ⟨(b1 x hx).1, lt_of_lt_of_le (b1 x hx).2 n23⟩
    · exact ⟨le_trans n12 (b2 x hx).1, (b2 x hx).2⟩
  · have h2 : (lookupActive s2 e c).isSome := by
      cases hj : lookupActive s1 e c with
      | none => rw [hj] at h; cases h
      | some j => rw [a12 e c j hj]; rfl
    rw [w23 e c h2, w12 e c h]
  · intro hw
    obtain ⟨hw2, hc1⟩ := c1 hw
    obtain ⟨hw3, hc2⟩ := c2 hw2
    refine ⟨hw3, fun wid => ?_⟩
    have hx1 := hc1 wid
    have hx2 := hc2 wid
    simp only [List.map_append, List.count_append]
    omega

theorem lookupWaitersList_congr {s1 s2 : State} (h : s1.waiters = s2.waiters)
    (e c : Nat) : lookupWaitersList s1 e c = lookupWaitersList s2 e c := by
  unfold lookupWaitersList
  rw [h]

theorem countW_congr {s1 s2 : State} (h : s1.waiters = s2.waiters) (wid : Nat) :
    countW s1 wid = countW s2 wid := by
  unfold countW
  rw [h]

theorem waitersWF_congr {s1 s2 : State} (h : s1.waiters = s2.waiters)
    (hw : WaitersWF s1) : WaitersWF s2 := by
  unfold WaitersWF at hw ⊢
  rw [← h]
  exact hw

/-- A state change that leaves the waiter index alone is an `Extends` step as
far as waiters are concerned; helper for assembling the per-operation
lemmas. -/
theorem extends_of_waiters_eq {st st' : State} (h : st'.waiters = st.waiters)
    (dr : List (Nat × Nat)) (hdr : st'.resolvedLog = st.resolvedLog ++ dr)
    (hdrn : dr = []) :
    (∀ e c, (lookupActive st e c).isSome →
      lookupWaitersList st' e c = lookupWaitersList st e c) ∧
    (∃ dr0, st'.resolvedLog = st.resolvedLog ++ dr0 ∧
      (WaitersWF st →
        WaitersWF st' ∧
        ∀ wid, countW st' wid + (dr0.map Prod.fst).count wid = countW st wid)) := by
  subst hdrn
  refine ⟨fun e c _ => lookupWaitersList_congr h e c, ⟨[], hdr, fun hw => ⟨?_, ?_⟩⟩⟩
  · exact waitersWF_congr h.symm hw
  · intro wid
    rw [countW_congr h wid]
    simp

theorem ensureEntries_extends (st : State) (e : Nat) :
    Extends st (ensureEntries st e) := by
  obtain ⟨f1, f2, f3, f4, f5⟩ := ensureEntries_fields st e
  obtain ⟨hwl, hcnt⟩ := extends_of_waiters_eq f1 [] (by rw [f5]; simp) rfl
  exact ⟨fun e' c' j h => by rw [ensureEntries_lookupActive]; exact h,
    fun e' h => ensureEntries_inherited_mono st e e' h,
    le_of_eq f3.symm, ⟨[], by rw [f4]; simp, by simp⟩, hwl, hcnt⟩

theorem registerComponent_extends (st : State) (e c : Nat) (info : ComponentInfo)
    (h : lookupActive st e c = none) :
    Extends st (registerComponent st e c info).1 := by
  obtain ⟨s1, s2, s3, s4, s5, s6, s7, s8⟩ := registerComponent_spec st e c info
  obtain ⟨hwl, hcnt⟩ := extends_of_waiters_eq s4 [] (by rw [s5]; simp) rfl
  refine ⟨fun e' c' j hj => ?_, s8, by rw [s2]; omega,
    ⟨[st.nextId], by rw [s3], ?_⟩, hwl, hcnt⟩
  · by_cases hx : e' = e ∧ c' = c
    · exfalso
      obtain ⟨he, hc⟩ := hx
      rw [he, hc, h] at hj
      cases hj
    · rw [s7 e' c' hx]
      exact hj
  · intro x hx
    have hxe : x = st.nextId := by simpa using hx
    subst hxe
    rw [s2]
    omega

theorem map_fst_pair {β : Type} (ls : List Nat) (i : β) :
    (ls.map (fun x => (x, i))).map Prod.fst = ls := by
  induction ls with
  | nil => rfl
  | cons a rest ih => simp [ih]

/-- The closing `resolveWaiters` of a fresh attach, composed onto the
extension reached by registration and dependency resolution: the resolved
pair was not active at entry, so its waiter set may be consumed. -/
theorem resolveWaiters_extends (st st3 : State) (e c i : Nat)
    (hx : Extends st st3) (h : lookupActive st e c = none) :
    Extends st (resolveWaiters st3 e c i) := by
  obtain ⟨f1, f2, f3, f4, f5, f6, f7⟩ := resolveWaiters_fields st3 e c i
  obtain ⟨a13, i13, n13, ⟨L, cl, b⟩, w13, ⟨dr, rl, cc⟩⟩ := hx
  refine ⟨fun e' c' j hj => ?_, fun e' hh => ?_, ?_, ⟨L, ?_, ?_⟩,
    fun e' c' hsome => ?_,
    ⟨dr ++ (lookupWaitersList st3 e c).map (fun x => (x, i)), ?_,
     fun hw => ⟨?_, fun wid => ?_⟩⟩⟩
  · unfold lookupActive
    rw [f1]
    exact a13 e' c' j hj
  · rw [f2]
    exact i13 e' hh
  · rw [f5]
    exact n13
  · rw [f6]
    exact cl
  · rw [f5]
    exact b
  · have hne : ¬ (e' = e ∧ c' = c) := by
      rintro ⟨he, hc⟩
      rw [he, hc, h] at hsome
      cases hsome
    rw [(resolveWaiters_waiters st3 e c i).1 e' c' hne]
    exact w13 e' c' hsome
  · rw [f7, rl, List.append_assoc]
  · exact resolveWaiters_wf st3 e c i (cc hw).1
  · obtain ⟨hw3, hc⟩ := cc hw
    have hrc := resolveWaiters_count st3 e c i hw3 wid
    have hcd := hc wid
    have hmap : (((lookupWaitersList st3 e c).map (fun x => (x, i))).map
        Prod.fst).count wid = (lookupWaitersList st3 e c).count wid := by
      rw [map_fst_pair]
    simp only [List.map_append, List.count_append]
    rw [hmap]
    omega

/-- Every run of the attach/get/resolve recursion is an `Extends` step, at
any fuel. -/
theorem extendsF (fuel : Nat) :
    (∀ reg st w e c skip, Extends st (addComponentF fuel reg st w e c skip).1) ∧
    (∀ reg st w e c, Extends st (getComponentF fuel reg st w e c).1) ∧
    (∀ reg st w e ident ds, Extends st (resolveDepsF fuel reg st w e ident ds).1) := by
  induction fuel with
  | zero =>
    exact ⟨fun _ st _ _ _ _ => extendsRefl st, fun _ st _ _ _ => extendsRefl st,
      fun _ st _ _ _ _ => extendsRefl st⟩
  | succ fuel ih =>
    obtain ⟨ihA, ihG, ihD⟩ := ih
    have hD : ∀ reg st w e ident ds,
        Extends st (resolveDepsF (fuel + 1) reg st w e ident ds).1 := by
      intro reg st w e ident ds
      induction ds generalizing st w with
      | nil => exact extendsRefl st
      | cons d ds ihds =>
        show Extends st (resolveDepsF (fuel + 1) reg st w e ident (d :: ds)).1
        cases hrd : lookupA reg d with
        | none =>
          have heq : resolveDepsF (fuel + 1) reg st w e ident (d :: ds) =
              resolveDepsF fuel reg st w e ident ds := by
            simp only [resolveDepsF, hrd]
          rw [heq]
          exact ihD reg st w e ident ds
        | some dinfo =>
          cases hg : getComponentF fuel reg st w e d with
          | mk st' rest =>
            cases rest with
            | mk w' r =>
              have hxg : Extends st st' := by
                have := ihG reg st w e d
                rw [hg] at this
                exact this
              cases r with
              | error er =>
                have heq : resolveDepsF (fuel + 1) reg st w e ident (d :: ds) =
                    (st', w', .error er) := by
                  simp only [resolveDepsF, hrd, hg]
                rw [heq]
                exact hxg
              | ok o =>
                cases o with
                | none =>
                  have heq : resolveDepsF (fuel + 1) reg st w e ident (d :: ds) =
                      (st', w', .error
                        (.unresolvedDependency dinfo.identifier ident e)) := by
                    simp only [resolveDepsF, hrd, hg]
                  rw [heq]
                  exact hxg
                | some j =>
                  have heq : resolveDepsF (fuel + 1) reg st w e ident (d :: ds) =
                      resolveDepsF fuel reg st' w' e ident ds := by
                    simp only [resolveDepsF, hrd, hg]
                  rw [heq]
                  exact extendsTrans hxg (ihD reg st' w' e ident ds)
    have hA : ∀ reg st w e c skip,
        Extends st (addComponentF (fuel + 1) reg st w e c skip).1 := by
      intro reg st w e c skip
      cases hreg : lookupA reg c with
      | none =>
        have heq : addComponentF (fuel + 1) reg st w e c skip =
            (st, w, .error .unknownDefinition) := by
          simp only [addComponentF, hreg]
        rw [heq]
        exact extendsRefl st
      | some info =>
        cases hga : getAttributesF info w e with
        | mk w' r =>
          cases r with
          | error er =>
            have heq : addComponentF (fuel + 1) reg st w e c skip =
                (st, w', .error er) := by
              simp only [addComponentF, hreg, hga]
            rw [heq]
            exact extendsRefl st
          | ok cache =>
            by_cases hgd : (!skip && !instanceGuardOk info e) = true
            · have heq : addComponentF (fuel + 1) reg st w e c skip =
                  (st, w', .error (.guardRejected e info.identifier)) := by
                simp only [addComponentF, hreg, hga, hgd, if_true]
              rw [heq]
              exact extendsRefl st
            · have hgd' : (!skip && !instanceGuardOk info e) = false :=
                Bool.eq_false_iff.mpr hgd
              cases hact : lookupActive (ensureEntries st e) e c with
              | some existing =>
                have heq : addComponentF (fuel + 1) reg st w e c skip =
                    (ensureEntries st e, w', .ok existing) := by
                  simp only [addComponentF, hreg, hga, hgd', Bool.false_eq_true,
                    if_false, hact]
                rw [heq]
                exact ensureEntries_extends st e
              | none =>
                have hnone : lookupActive st e c = none := by
                  rw [← ensureEntries_lookupActive st e e c]
                  exact hact
                have hx2 : Extends st
                    (registerComponent (ensureEntries st e) e c info).1 :=
                  extendsTrans (ensureEntries_extends st e)
                    (registerComponent_extends (ensureEntries st e) e c info hact)
                cases hdeps : resolveDepsF fuel reg
                    (registerComponent (ensureEntries st e) e c info).1 w' e
                    info.identifier info.componentDependencies with
                | mk st3 rest =>
                  cases rest with
                  | mk w2 r2 =>
                    have hx3 : Extends st st3 := by
                      have := ihD reg
                        (registerComponent (ensureEntries st e) e c info).1 w' e
                        info.identifier info.componentDependencies
                      rw [hdeps] at this
                      exact extendsTrans hx2 this
                    cases r2 with
                    | error er =>
                      have heq : addComponentF (fuel + 1) reg st w e c skip =
                          (st3, w2, .error er) := by
                        simp only [addComponentF, hreg, hga, hgd',
                          Bool.false_eq_true, if_false, hact, hdeps]
                      rw [heq]
                      exact hx3
                    | ok u =>
                      have heq : addComponentF (fuel + 1) reg st w e c skip =
                          (resolveWaiters st3 e c
                             (registerComponent (ensureEntries st e) e c info).2,
                           w2, .ok
                             (registerComponent (ensureEntries st e) e c info).2) := by
                        simp only [addComponentF, hreg, hga, hgd',
                          Bool.false_eq_true, if_false, hact, hdeps]
                      rw [heq]
                      exact resolveWaiters_extends st st3 e c _ hx3 hnone
    refine ⟨hA, ?_, hD⟩
    intro reg st w e c
    cases hact : lookupActive st e c with
    | some i =>
      have heq : getComponentF (fuel + 1) reg st w e c = (st, w, .ok (some i)) := by
        simp only [getComponentF, hact]
      rw [heq]
      exact extendsRefl st
    | none =>
      by_cases hcc : canCreateComponentEagerF (fuel + 1) reg st w c e = true
      · cases hadd : addComponentF fuel reg st w e c true with
        | mk st' rest =>
          cases rest with
          | mk w' r =>
            have hxa : Extends st st' := by
              have := ihA reg st w e c true
              rw [hadd] at this
              exact this
            cases r with
            | error er =>
              have heq : getComponentF (fuel + 1) reg st w e c =
                  (st', w', .error er) := by
                simp only [getComponentF, hact, hcc, if_true, hadd]
              rw [heq]
              exact hxa
            | ok i =>
              have heq : getComponentF (fuel + 1) reg st w e c =
                  (st', w', .ok (some i)) := by
                simp only [getComponentF, hact, hcc, if_true, hadd]
              rw [heq]
              exact hxa
      · have hcc' : canCreateComponentEagerF (fuel + 1) reg st w c e = false :=
          Bool.eq_false_iff.mpr hcc
        have heq : getComponentF (fuel + 1) reg st w e c = (st, w, .ok none) := by
          simp only [getComponentF, hact, hcc', Bool.false_eq_true, if_false]
        rw [heq]
        exact extendsRefl st

/-- Inversion of a successful attach on a pair with no attached instance: the
definition was present, the attributes validated, the guard passed or was
skipped, the instance allocated is the entry `nextId`, and the final state is
the waiter resolution applied to the state reached by dependency resolution
after the two-phase registration. -/
theorem addComponentF_ok_inversion (fuel : Nat) (reg : Registry) (st st1 : State)
    (w w1 : World) (e c i : Nat) (skip : Bool)
    (hnone : lookupActive st e c = none)
    (hrun : addComponentF (fuel + 1) reg st w e c skip = (st1, w1, .ok i)) :
    ∃ info w' cache st3,
      lookupA reg c = some info ∧
      getAttributesF info w e = (w', .ok cache) ∧
      (!skip && !instanceGuardOk info e) = false ∧
      i = st.nextId ∧
      resolveDepsF fuel reg
          (registerComponent (ensureEntries st e) e c info).1 w' e
          info.identifier info.componentDependencies = (st3, w1, .ok ()) ∧
      st1 = resolveWaiters st3 e c st.nextId := by
  cases hreg : lookupA reg c with
  | none =>
    have heq : addComponentF (fuel + 1) reg st w e c skip =
        (st, w, .error .unknownDefinition) := by
      simp only [addComponentF, hreg]
    rw [heq] at hrun
    simp [Prod.ext_iff] at hrun
  | some info =>
    cases hga : getAttributesF info w e with
    | mk w' r =>
      cases r with
      | error er =>
        have heq : addComponentF (fuel + 1) reg st w e c skip =
            (st, w', .error er) := by
          simp only [addComponentF, hreg, hga]
        rw [heq] at hrun
        simp [Prod.ext_iff] at hrun
      | ok cache =>
        by_cases hgd : (!skip && !instanceGuardOk info e) = true
        · have heq : addComponentF (fuel + 1) reg st w e c skip =
              (st, w', .error (.guardRejected e info.identifier)) := by
            simp only [addComponentF, hreg, hga, hgd, if_true]
          rw [heq] at hrun
          simp [Prod.ext_iff] at hrun
        · have hgd' : (!skip && !instanceGuardOk info e) = false :=
            Bool.eq_false_iff.mpr hgd
          cases hact : lookupActive (ensureEntries st e) e c with
          | some existing =>
            rw [ensureEntries_lookupActive, hnone] at hact
            cases hact
          | none =>
            cases hdeps : resolveDepsF fuel reg
                (registerComponent (ensureEntries st e) e c info).1 w' e
                info.identifier info.componentDependencies with
            | mk st3 rest =>
              cases rest with
              | mk w2 r2 =>
                cases r2 with
                | error er =>
                  have heq : addComponentF (fuel + 1) reg st w e c skip =
                      (st3, w2, .error er) := by
                    simp only [addComponentF, hreg, hga, hgd',
                      Bool.false_eq_true, if_false, hact, hdeps]
                  rw [heq] at hrun
                  simp [Prod.ext_iff] at hrun
                | ok u =>
                  have hid : (registerComponent (ensureEntries st e) e c info).2 =
                      st.nextId := by
                    rw [(registerComponent_spec (ensureEntries st e) e c info).1]
                    exact (ensureEntries_fields st e).2.2.1
                  have heq : addComponentF (fuel + 1) reg st w e c skip =
                      (resolveWaiters st3 e c st.nextId, w2, .ok st.nextId) := by
                    simp only [addComponentF, hreg, hga, hgd',
                      Bool.false_eq_true, if_false, hact, hdeps, hid]
                  rw [heq] at hrun
                  obtain ⟨hs, hw2, hi⟩ : resolveWaiters st3 e c st.nextId = st1 ∧
                      w2 = w1 ∧ (Except.ok st.nextId : Except CompError Nat) = .ok i := by
                    simpa [Prod.ext_iff] using hrun
                  have hi' : st.nextId = i := by
                    injection hi
                  cases u
                  exact ⟨info, w', cache, st3, rfl, hga, hgd', hi'.symm,
                    by rw [hdeps, hw2], hs.symm⟩

/-!
## Claim C2
-/

/-- Definition `C` for the C2 counterexample: one guarded attribute `k`
(must be 10, no default) and a construction-time dependency on `D`. -/
def infoC2a : ComponentInfo :=
  { identifier := "C", tag := none,
    attributeGuards := [("k", fun v => v == some 10)], defaults := [],
    instanceGuard := none, componentDependencies := [2],
    ancestors := [], implements := [] }

/-- Definition `D` for the C2 counterexample: tag-bound, with a guarded
attribute `k` (must be 99) whose configured default 5 is written back onto
the entity when the guard fails. -/
def infoC2b : ComponentInfo :=
  { identifier := "D", tag := some "T",
    attributeGuards := [("k", fun v => v == some 99)], defaults := [("k", 5)],
    instanceGuard := none, componentDependencies := [],
    ancestors := [], implements := [] }

def regC2 : Registry := [(1, infoC2a), (2, infoC2b)]

/-- Entity 0 carries tag `T`, has a `Parent` and `k = 10`. -/
def wC2 : World :=
  { attrs := [((0, "k"), 10)], tagged := [(0, "T")], hasParent := [0] }

/-- **C2** counterexample: attaching `C` twice without an intervening detach
is *not* unconditionally idempotent.  The first attach succeeds: `C`'s guard
sees `k = 10`; resolving `C`'s dependency `D` eagerly attaches `D`, whose
attribute validation writes `D`'s configured default `k := 5` onto the same
entity.  The second attach re-validates `C`'s attributes, now reads `k = 5`,
and raises `InvalidAttribute` instead of returning the existing instance. -/
theorem c2_counterexample :
    (addComponentF 6 regC2 emptyState wC2 0 1 false).2.2 = .ok 0 ∧
    lookupActive (addComponentF 6 regC2 emptyState wC2 0 1 false).1 0 1 =
      some 0 ∧
    (addComponentF 6 regC2
        (addComponentF 6 regC2 emptyState wC2 0 1 false).1
        (addComponentF 6 regC2 emptyState wC2 0 1 false).2.1 0 1 false).2.2 =
      .error (.invalidAttribute 0 "k" "C") := by
  decide

/-- **C2** (amended): a second attach for the same (entity, definition)
without an intervening detach returns the identical instance with the state
unchanged, and the instance's construction ran exactly once — *provided* the
second call's attribute re-validation succeeds and its instance guard passes
(or is skipped); the counterexample shows the unconditional claim fails. -/
theorem c2_attach_idempotent (g g2 : Nat) (reg : Registry) (st st1 : State)
    (w w1 w2 : World) (e c : Nat) (skip skip2 : Bool) (info : ComponentInfo)
    (i : Nat) (cache : List (String × Nat))
    (hlog : ∀ x ∈ st.constructedLog, x < st.nextId)
    (hnone : lookupActive st e c = none)
    (hreg : lookupA reg c = some info)
    (hrun : addComponentF (g + 1) reg st w e c skip = (st1, w1, .ok i))
    (hga2 : getAttributesF info w1 e = (w2, .ok cache))
    (hgd2 : (!skip2 && !instanceGuardOk info e) = false) :
    addComponentF (g2 + 1) reg st1 w1 e c skip2 = (st1, w2, .ok i) ∧
    st1.constructedLog.count i = 1 := by
  obtain ⟨info0, w', cache0, st3, hreg0, hga0, hgd0, hi, hdeps, hst1⟩ :=
    addComponentF_ok_inversion g reg st st1 w w1 e c i skip hnone hrun
  have hinfo : info = info0 := Option.some.inj (hreg.symm.trans hreg0)
  subst hinfo
  subst hi
  obtain ⟨s1, s2, s3, s4, s5, s6, s7, s8⟩ :=
    registerComponent_spec (ensureEntries st e) e c info
  obtain ⟨e1, e2, e3, e4, e5⟩ := ensureEntries_fields st e
  have hx23 : Extends (registerComponent (ensureEntries st e) e c info).1 st3 := by
    have hx := (extendsF g).2.2 reg
      (registerComponent (ensureEntries st e) e c info).1 w' e
      info.identifier info.componentDependencies
    rw [hdeps] at hx
    exact hx
  have hact2 : lookupActive (registerComponent (ensureEntries st e) e c info).1
      e c = some st.nextId := by
    rw [s6, e3]
  have hact3 : lookupActive st3 e c = some st.nextId :=
    hx23.1 e c st.nextId hact2
  obtain ⟨r1, r2, r3, r4, r5, r6, r7⟩ := resolveWaiters_fields st3 e c st.nextId
  have hact1 : lookupActive st1 e c = some st.nextId := by
    rw [hst1]
    unfold lookupActive
    rw [r1]
    exact hact3
  have hinh2 : (lookupA (registerComponent (ensureEntries st e) e c
      info).1.inherited e).isSome :=
    s8 e (ensureEntries_inherited_isSome st e)
  have hinh3 : (lookupA st3.inherited e).isSome := hx23.2.1 e hinh2
  have hinh1 : (lookupA st1.inherited e).isSome := by
    rw [hst1, r2]
    exact hinh3
  have hens1 : ensureEntries st1 e = st1 :=
    ensureEntries_self st1 e (lookupActive_isSome st1 e c st.nextId hact1) hinh1
  refine ⟨by simp [addComponentF, hreg, hga2, hgd2, hens1, hact1], ?_⟩
  have hlog2 : (registerComponent (ensureEntries st e) e c
      info).1.constructedLog = st.constructedLog ++ [st.nextId] := by
    rw [s3, e4, e3]
  obtain ⟨L, hL, hLb⟩ := hx23.2.2.2.1
  have hlog1 : st1.constructedLog = st.constructedLog ++ [st.nextId] ++ L := by
    rw [hst1, r6, hL, hlog2]
  have h0 : st.constructedLog.count st.nextId = 0 := by
    rw [List.count_eq_zero]
    intro hmem
    have := hlog st.nextId hmem
    omega
  have hL0 : L.count st.nextId = 0 := by
    rw [List.count_eq_zero]
    intro hmem
    have := (hLb st.nextId hmem).1
    rw [s2, e3] at this
    omega
  rw [hlog1]
  simp [List.count_append, h0, hL0]

/-- Dependency-free definition for the C2 witness. -/
def infoC2w : ComponentInfo :=
  { identifier := "CW", tag := none, attributeGuards := [], defaults := [],
    instanceGuard := none, componentDependencies := [],
    ancestors := [], implements := [] }

def regC2w : Registry := [(1, infoC2w)]

/-- The state reached by the first attach of the C2 witness. -/
def stC2w : State :=
  { active := [(0, [(1, 0)])], inherited := [(0, [("CW", [0])])],
    reverseMapping := [("CW", [0])], waiters := [], trackedQualified := [],
    nextId := 1, constructedLog := [0], resolvedLog := [] }

theorem c2_witness :
    addComponentF 2 regC2w emptyState emptyWorld 0 1 false =
      (stC2w, emptyWorld, .ok 0) ∧
    addComponentF 2 regC2w stC2w emptyWorld 0 1 false =
      (stC2w, emptyWorld, .ok 0) ∧
    stC2w.constructedLog.count 0 = 1 :=
  ⟨by decide,
   (c2_attach_idempotent 1 1 regC2w emptyState stC2w emptyWorld emptyWorld
      emptyWorld 0 1 false false infoC2w 0 [] (by decide) (by decide)
      rfl (by decide) rfl rfl).1,
   (c2_attach_idempotent 1 1 regC2w emptyState stC2w emptyWorld emptyWorld
      emptyWorld 0 1 false false infoC2w 0 [] (by decide) (by decide)
      rfl (by decide) rfl rfl).2⟩

/-!
## Claim C6
-/

/-- The registrations of one waiter at one pair are part of its global
registration count. -/
theorem lookupWaitersList_count_le (st : State) (e c wid : Nat)
    (h : WaitersWF st) :
    (lookupWaitersList st e c).count wid ≤ countW st wid := by
  obtain ⟨h1, h2⟩ := h
  cases hiw : lookupA st.waiters e with
  | none => simp [lookupWaitersList, hiw, lookupA]
  | some iw =>
    cases hiwc : lookupA iw c with
    | none => simp [lookupWaitersList, hiw, hiwc]
    | some ws =>
      have hl : lookupWaitersList st e c = ws := by
        simp [lookupWaitersList, hiw, hiwc]
      have hiwnd : keysNodup iw := h2 (e, iw) (lookupA_mem hiw)
      have houter : sumA st.waiters (fun iw₀ => sumA iw₀ (fun l => l.count wid)) =
          sumA iw (fun l => l.count wid) +
            sumA (eraseA st.waiters e) (fun iw₀ => sumA iw₀ (fun l => l.count wid)) :=
        sumA_erase st.waiters _ e iw h1 hiw
      have hinner : sumA iw (fun l => l.count wid) =
          ws.count wid + sumA (eraseA iw c) (fun l => l.count wid) :=
        sumA_erase iw _ c ws hiwnd hiwc
      rw [hl, countW_eq_sumA]
      omega

/-- **C6**: `waitForComponent` resolves immediately through the
`getComponent` path when already satisfiable (forwarding its result);
otherwise it registers the resolver in the waiter set of the pair and stays
pending, adding exactly one registration; a pending waiter whose sole
registration is at the pair is resolved exactly once, with the attached
instance, at the moment the component attaches; cancelling before resolution
removes the waiter from the set, never leaves an empty waiter collection
behind, and afterwards no attach can ever resolve it. -/
theorem c6_wait_for (g : Nat) (reg : Registry) (st : State) (w : World)
    (e c wid : Nat) :
    (∀ st' w' i, getComponentF g reg st w e c = (st', w', .ok (some i)) →
      waitForComponentF g reg st w e c wid = (st', w', .ok (some i))) ∧
    (getComponentF g reg st w e c = (st, w, .ok none) →
      (waitForComponentF g reg st w e c wid).2.2 = .ok none ∧
      lookupWaitersList (waitForComponentF g reg st w e c wid).1 e c =
        addS (lookupWaitersList st e c) wid ∧
      (WaitersWF st → countW st wid = 0 →
        countW (waitForComponentF g reg st w e c wid).1 wid = 1)) ∧
    (∀ fuel skip st1 w1 i, WaitersWF st →
      (lookupWaitersList st e c).count wid = 1 → countW st wid = 1 →
      lookupActive st e c = none →
      addComponentF (fuel + 1) reg st w e c skip = (st1, w1, .ok i) →
      ∃ dr, st1.resolvedLog = st.resolvedLog ++ dr ∧
        (dr.map Prod.fst).count wid = 1 ∧ (wid, i) ∈ dr ∧
        countW st1 wid = 0) ∧
    (lookupWaitersList (cancelWaiterF st e c wid) e c =
        (lookupWaitersList st e c).erase wid ∧
      (NoEmptyWaiters st → NoEmptyWaiters (cancelWaiterF st e c wid)) ∧
      (WaitersWF st → (lookupWaitersList st e c).count wid = 1 →
        countW st wid = 1 →
        countW (cancelWaiterF st e c wid) wid = 0 ∧
        ∀ fuel reg2 w2 e2 c2 skip2, ∃ dr,
          (addComponentF fuel reg2 (cancelWaiterF st e c wid) w2 e2 c2
              skip2).1.resolvedLog =
            (cancelWaiterF st e c wid).resolvedLog ++ dr ∧
          (dr.map Prod.fst).count wid = 0)) := by
  refine ⟨?_, ?_, ?_, ?_⟩
  · intro st' w' i hg
    unfold waitForComponentF
    rw [hg]
  · intro hget
    have heq : waitForComponentF g reg st w e c wid =
        ({ st with waiters := (insertA st.waiters e
            (insertA ((lookupA st.waiters e).getD []) c
              (addS (lookupWaitersList st e c) wid))) },
         w, .ok none) := by
      unfold waitForComponentF
      rw [hget]
      rfl
    refine ⟨by rw [heq], ?_, ?_⟩
    · rw [heq]
      show lookupWaitersList
          { st with waiters := (insertA st.waiters e
              (insertA ((lookupA st.waiters e).getD []) c
                (addS (lookupWaitersList st e c) wid))) } e c =
        addS (lookupWaitersList st e c) wid
      unfold lookupWaitersList
      rw [lookupA_insertA_self]
      simp only [Option.getD_some]
      rw [lookupA_insertA_self]
      simp only [Option.getD_some]
    · intro hwf hc0
      rw [heq]
      show countW
          { st with waiters := (insertA st.waiters e
              (insertA ((lookupA st.waiters e).getD []) c
                (addS (lookupWaitersList st e c) wid))) } wid = 1
      have hciw : countW
            { st with waiters := (insertA st.waiters e
                (insertA ((lookupA st.waiters e).getD []) c
                  (addS (lookupWaitersList st e c) wid))) } wid +
          (lookupWaitersList st e c).count wid =
          countW st wid + (addS (lookupWaitersList st e c) wid).count wid :=
        countW_insertWaiter st e c (addS (lookupWaitersList st e c) wid) hwf wid
      have hle := lookupWaitersList_count_le st e c wid hwf
      have hws0 : (lookupWaitersList st e c).count wid = 0 := by omega
      have hnm : wid ∉ lookupWaitersList st e c := List.count_eq_zero.mp hws0
      have haddS : addS (lookupWaitersList st e c) wid =
          lookupWaitersList st e c ++ [wid] := by
        unfold addS
        rw [if_neg hnm]
      have hac : (addS (lookupWaitersList st e c) wid).count wid = 1 := by
        rw [haddS]
        simp [List.count_append, hws0]
      omega
  · intro fuel skip st1 w1 i hwf hloc hglob hnone hrun
    obtain ⟨info, w', cache, st3, hreg, hga, hgd, hi, hdeps, hst1⟩ :=
      addComponentF_ok_inversion fuel reg st st1 w w1 e c i skip hnone hrun
    subst hi
    obtain ⟨s1, s2, s3, s4, s5, s6, s7, s8⟩ :=
      registerComponent_spec (ensureEntries st e) e c info
    obtain ⟨e1, e2, e3, e4, e5⟩ := ensureEntries_fields st e
    have hw2eq : (registerComponent (ensureEntries st e) e c info).1.waiters =
        st.waiters := by
      rw [s4, e1]
    have hx23 : Extends (registerComponent (ensureEntries st e) e c info).1
        st3 := by
      have hx := (extendsF fuel).2.2 reg
        (registerComponent (ensureEntries st e) e c info).1 w' e
        info.identifier info.componentDependencies
      rw [hdeps] at hx
      exact hx
    have hwf2 : WaitersWF (registerComponent (ensureEntries st e) e c info).1 :=
      waitersWF_congr hw2eq.symm hwf
    obtain ⟨dr3, hrl3, hcc3⟩ := hx23.2.2.2.2.2
    obtain ⟨hwf3, hcnt3⟩ := hcc3 hwf2
    have hact2 : lookupActive (registerComponent (ensureEntries st e) e c
        info).1 e c = some st.nextId := by
      rw [s6, e3]
    have hwl3 : lookupWaitersList st3 e c = lookupWaitersList st e c := by
      rw [hx23.2.2.2.2.1 e c (by rw [hact2]; rfl)]
      exact lookupWaitersList_congr hw2eq e c
    obtain ⟨r1, r2, r3, r4, r5, r6, r7⟩ := resolveWaiters_fields st3 e c st.nextId
    have hrc := resolveWaiters_count st3 e c st.nextId hwf3 wid
    have hcnt2 : countW (registerComponent (ensureEntries st e) e c info).1 wid =
        countW st wid := countW_congr hw2eq wid
    have hc3 := hcnt3 wid
    have hws3c : (lookupWaitersList st3 e c).count wid = 1 := by
      rw [hwl3]
      exact hloc
    have hge := lookupWaitersList_count_le st3 e c wid hwf3
    refine ⟨dr3 ++ (lookupWaitersList st3 e c).map (fun x => (x, st.nextId)),
      ?_, ?_, ?_, ?_⟩
    · rw [hst1, r7, hrl3, s5, e5, List.append_assoc]
    · simp only [List.map_append, List.count_append, map_fst_pair]
      omega
    · refine List.mem_append.mpr (Or.inr (List.mem_map.mpr ⟨wid, ?_, rfl⟩))
      by_contra hmem
      rw [List.count_eq_zero_of_not_mem hmem] at hws3c
      omega
    · rw [hst1]
      omega
  · refine ⟨(cancelWaiterF_waiters st e c wid).2, cancelWaiterF_noempty st e c wid,
      ?_⟩
    intro hwf hloc hglob
    have hcc := cancelWaiterF_count st e c wid hwf wid
    have hec : ((lookupWaitersList st e c).erase wid).count wid = 0 := by
      rw [List.count_erase_self, hloc]
    have hc0 : countW (cancelWaiterF st e c wid) wid = 0 := by omega
    refine ⟨hc0, ?_⟩
    intro fuel reg2 w2 e2 c2 skip2
    have hwfc : WaitersWF (cancelWaiterF st e c wid) := cancelWaiterF_wf st e c wid hwf
    obtain ⟨da, ia, na, la, wa, ⟨dr, hdr, hcd⟩⟩ :=
      (extendsF fuel).1 reg2 (cancelWaiterF st e c wid) w2 e2 c2 skip2
    obtain ⟨hwf', hcnt'⟩ := hcd hwfc
    refine ⟨dr, hdr, ?_⟩
    have := hcnt' wid
    omega

/-- Dependency-free definition `W` for the C6 witness. -/
def infoC6 : ComponentInfo :=
  { identifier := "W", tag := none, attributeGuards := [], defaults := [],
    instanceGuard := none, componentDependencies := [],
    ancestors := [], implements := [] }

def regC6 : Registry := [(1, infoC6)]

/-- A pending waiter (resolver 7) registered for `(entity 0, definition 1)`. -/
def stC6 : State :=
  { active := [], inherited := [], reverseMapping := [],
    waiters := [(0, [(1, [7])])], trackedQualified := [],
    nextId := 0, constructedLog := [], resolvedLog := [] }

/-- The state the attach of the C6 witness reaches: the waiter got resolved
with the new instance 0, and the waiter index is empty again. -/
def st1C6 : State :=
  { active := [(0, [(1, 0)])], inherited := [(0, [("W", [0])])],
    reverseMapping := [("W", [0])], waiters := [], trackedQualified := [],
    nextId := 1, constructedLog := [0], resolvedLog := [(7, 0)] }

theorem c6_witness :
    (∃ dr, st1C6.resolvedLog = stC6.resolvedLog ++ dr ∧
      (dr.map Prod.fst).count 7 = 1 ∧ ((7 : Nat), (0 : Nat)) ∈ dr ∧
      countW st1C6 7 = 0) ∧
    lookupWaitersList (cancelWaiterF stC6 0 1 7) 0 1 =
      (lookupWaitersList stC6 0 1).erase 7 :=
  ⟨(c6_wait_for 2 regC6 stC6 emptyWorld 0 1 7).2.2.1 1 false st1C6 emptyWorld 0
     (by decide) (by decide) (by decide) (by decide) (by decide),
   (c6_wait_for 2 regC6 stC6 emptyWorld 0 1 7).2.2.2.1⟩

/-!
## Claim C7
-/

/-- `removeIdMapping` either returns the state unchanged (an early return)
or rewrites only the inherited and reverse indices. -/
theorem removeIdMappingF_shape (st : State) (e i : Nat) (id : String) :
    removeIdMappingF st e i id = st ∨
    ∃ inh' rev', removeIdMappingF st e i id =
      { st with inherited := inh', reverseMapping := rev' } := by
  unfold removeIdMappingF
  split
  · exact Or.inl rfl
  · split
    · exact Or.inl rfl
    · split
      · exact Or.inl rfl
      · exact Or.inr ⟨_, _, rfl⟩

theorem removeIdMappingF_fields (st : State) (e i : Nat) (id : String) :
    (removeIdMappingF st e i id).active = st.active ∧
    (removeIdMappingF st e i id).waiters = st.waiters ∧
    (removeIdMappingF st e i id).trackedQualified = st.trackedQualified ∧
    (removeIdMappingF st e i id).nextId = st.nextId ∧
    (removeIdMappingF st e i id).constructedLog = st.constructedLog ∧
    (removeIdMappingF st e i id).resolvedLog = st.resolvedLog := by
  rcases removeIdMappingF_shape st e i id with h | ⟨inh', rev', h⟩ <;>
    rw [h] <;> exact ⟨rfl, rfl, rfl, rfl, rfl, rfl⟩

theorem removeIdMappings_fold_active (ids : List String) (st : State)
    (e i : Nat) :
    (ids.foldl (fun s id => removeIdMappingF s e i id) st).active = st.active := by
  induction ids generalizing st with
  | nil => rfl
  | cons id rest ih =>
    simp only [List.foldl_cons]
    rw [ih, (removeIdMappingF_fields st e i id).1]

/-- `removeIdMapping` never touches the reverse bucket of another
identifier. -/
theorem removeIdMappingF_reverse_other (st : State) (e i : Nat) (id id' : String)
    (h : id' ≠ id) :
    lookupA (removeIdMappingF st e i id).reverseMapping id' =
      lookupA st.reverseMapping id' := by
  cases hx : lookupA st.inherited e with
  | none => simp only [removeIdMappingF, hx]
  | some m =>
    cases hy : lookupA m id with
    | none => simp only [removeIdMappingF, hx, hy]
    | some bucket =>
      cases hz : lookupA st.reverseMapping id with
      | none => simp only [removeIdMappingF, hx, hy, hz]
      | some rbucket =>
        simp only [removeIdMappingF, hx, hy, hz]
        by_cases hre : (rbucket.erase i).isEmpty
        · rw [if_pos hre, lookupA_eraseA_ne _ _ _ h]
        · rw [if_neg hre, lookupA_insertA_ne _ _ _ _ h]

theorem removeIdMappings_fold_reverse_other (ids : List String) (st : State)
    (e i : Nat) (id' : String) (h : id' ∉ ids) :
    lookupA (ids.foldl (fun s id => removeIdMappingF s e i id) st).reverseMapping
        id' =
      lookupA st.reverseMapping id' := by
  induction ids generalizing st with
  | nil => rfl
  | cons id rest ih =>
    simp only [List.foldl_cons]
    have h1 : id' ≠ id := fun hc => h (hc ▸ List.mem_cons_self id rest)
    have h2 : id' ∉ rest := fun hc => h (List.mem_cons_of_mem _ hc)
    rw [ih (removeIdMappingF st e i id) h2,
      removeIdMappingF_reverse_other st e i id id' h1]

/-- One `removeIdMapping` step on an identifier whose inherited bucket is
exactly the removed instance and whose reverse bucket holds it once: the
inherited bucket is deleted (pruning the entity entry when it empties), and
the reverse bucket either disappears or stays nonempty without the
instance. -/
theorem removeIdMappingF_step (st : State) (e i : Nat) (id : String)
    (m : List (String × List Nat)) (rb : List Nat)
    (hm : lookupA st.inherited e = some m)
    (hb : lookupA m id = some [i])
    (hr : lookupA st.reverseMapping id = some rb)
    (hrc : rb.count i = 1) :
    (removeIdMappingF st e i id).inherited =
      (if (eraseA m id).isEmpty then eraseA st.inherited e
       else insertA st.inherited e (eraseA m id)) ∧
    (lookupA (removeIdMappingF st e i id).reverseMapping id = none ∨
      ∃ rb', lookupA (removeIdMappingF st e i id).reverseMapping id = some rb' ∧
        rb' ≠ [] ∧ i ∉ rb') := by
  have hnotmem : i ∉ rb.erase i := by
    rw [← List.count_eq_zero, List.count_erase_self, hrc]
  constructor
  · simp only [removeIdMappingF, hm, hb, hr, List.erase_cons_head,
      List.isEmpty_nil, if_true]
  · by_cases hre : (rb.erase i).isEmpty
    · refine Or.inl ?_
      simp only [removeIdMappingF, hm, hb, hr, if_pos hre]
      exact lookupA_eraseA_self st.reverseMapping id
    · refine Or.inr ⟨rb.erase i, ?_, ?_, hnotmem⟩
      · simp only [removeIdMappingF, hm, hb, hr, if_neg hre]
        exact lookupA_insertA_self st.reverseMapping id (rb.erase i)
      · intro hcontra
        rw [hcontra] at hre
        exact hre rfl

theorem lookupA_isSome_of_mem_keys {α β : Type} [DecidableEq α]
    {l : List (α × β)} {a : α} (h : a ∈ l.map Prod.fst) :
    (lookupA l a).isSome := by
  induction l with
  | nil => simp at h
  | cons p rest ih =>
    by_cases hpa : p.1 = a
    · simp [lookupA, hpa]
    · have h' : a ∈ rest.map Prod.fst := by
        rcases List.mem_map.mp h with ⟨q, hq, hqa⟩
        rcases List.mem_cons.mp hq with hq1 | hq2
        · exact absurd (by rw [hq1] at hqa; exact hqa) hpa
        · exact List.mem_map.mpr ⟨q, hq2, hqa⟩
      simp [lookupA, hpa, ih h']

theorem map_fst_eraseA {α β : Type} [DecidableEq α] (l : List (α × β)) (a : α) :
    (eraseA l a).map Prod.fst = (l.map Prod.fst).filter (fun x => x ≠ a) := by
  induction l with
  | nil => rfl
  | cons p rest ih =>
    by_cases hpa : p.1 = a <;>
      simp [eraseA, List.filter_cons, hpa] at ih ⊢ <;> exact ih

theorem filter_ne_of_not_mem {α : Type} [DecidableEq α] (l : List α) (a : α)
    (h : a ∉ l) : l.filter (fun x => x ≠ a) = l := by
  apply List.filter_eq_self.mpr
  intro x hx
  have hxa : x ≠ a := fun hc => h (hc ▸ hx)
  simpa using hxa

/-- Folding `removeIdMapping` over all identifiers of an instance that is the
sole member of every one of its inherited buckets (each held once by the
corresponding reverse bucket) deletes the entity's inherited entry entirely
and leaves no empty reverse bucket containing the instance behind. -/
theorem removeIdMappings_fold_main (ids : List String) :
    ∀ (st : State) (e i : Nat), ids.Nodup → ids ≠ [] →
    (∃ m, lookupA st.inherited e = some m ∧
      (m.map Prod.fst).Perm ids ∧ (∀ p ∈ m, p.2 = [i])) →
    (∀ id ∈ ids, ∃ rb, lookupA st.reverseMapping id = some rb ∧
      rb.count i = 1) →
    lookupA ((ids.foldl (fun s id => removeIdMappingF s e i id) st)).inherited
        e = none ∧
    (∀ id ∈ ids,
      lookupA ((ids.foldl (fun s id =>
          removeIdMappingF s e i id) st)).reverseMapping id = none ∨
      ∃ rb, lookupA ((ids.foldl (fun s id =>
          removeIdMappingF s e i id) st)).reverseMapping id = some rb ∧
        rb ≠ [] ∧ i ∉ rb) := by
  induction ids with
  | nil =>
    intro st e i _ hne _ _
    exact absurd rfl hne
  | cons id rest ih =>
    intro st e i hnd hne hinv hrev
    obtain ⟨m, hm, hperm, hbuck⟩ := hinv
    have hndr : rest.Nodup := (List.nodup_cons.mp hnd).2
    have hidr : id ∉ rest := (List.nodup_cons.mp hnd).1
    have hidm : id ∈ m.map Prod.fst :=
      hperm.mem_iff.mpr (List.mem_cons_self id rest)
    obtain ⟨bucket, hb⟩ :=
      Option.isSome_iff_exists.mp (lookupA_isSome_of_mem_keys hidm)
    have hbi : bucket = [i] := hbuck (id, bucket) (lookupA_mem hb)
    subst hbi
    obtain ⟨rb, hr, hrc⟩ := hrev id (List.mem_cons_self id rest)
    obtain ⟨hinh', hrevp⟩ := removeIdMappingF_step st e i id m rb hm hb hr hrc
    have hkeys : ((eraseA m id).map Prod.fst).Perm rest := by
      rw [map_fst_eraseA]
      have h1 := hperm.filter (fun x => x ≠ id)
      have h2 : (id :: rest).filter (fun x => x ≠ id) = rest := by
        simp [List.filter_cons]
        intro x hx hxa
        exact hidr (hxa ▸ hx)
      rw [h2] at h1
      exact h1
    by_cases hrn : rest = []
    · subst hrn
      have hknil : (eraseA m id).map Prod.fst = [] := List.perm_nil.mp hkeys
      have hmnil : eraseA m id = [] := List.map_eq_nil.mp hknil
      have hemp : (eraseA m id).isEmpty = true := by
        rw [hmnil]
        rfl
      simp only [hemp, if_true] at hinh'
      refine ⟨?_, ?_⟩
      · simp only [List.foldl_cons, List.foldl_nil]
        rw [hinh']
        exact lookupA_eraseA_self st.inherited e
      · intro id2 hid2
        have hid2' : id2 = id := by simpa using hid2
        subst hid2'
        simp only [List.foldl_cons, List.foldl_nil]
        exact hrevp
    · have hmne : eraseA m id ≠ [] := by
        intro hcontra
        rw [hcontra] at hkeys
        simp only [List.map_nil] at hkeys
        exact hrn (List.perm_nil.mp hkeys.symm)
      have hemp : (eraseA m id).isEmpty = false := by
        cases hcase : (eraseA m id).isEmpty
        · rfl
        · exact absurd (List.isEmpty_iff.mp hcase) hmne
      simp only [hemp, Bool.false_eq_true, if_false] at hinh'
      have hinv' : ∃ m', lookupA (removeIdMappingF st e i id).inherited e =
          some m' ∧ (m'.map Prod.fst).Perm rest ∧ ∀ p ∈ m', p.2 = [i] := by
        refine ⟨eraseA m id, ?_, hkeys, ?_⟩
        · rw [hinh']
          exact lookupA_insertA_self st.inherited e (eraseA m id)
        · intro p hp
          exact hbuck p (mem_eraseA hp)
      have hrev' : ∀ id2 ∈ rest, ∃ rb2,
          lookupA (removeIdMappingF st e i id).reverseMapping id2 = some rb2 ∧
          rb2.count i = 1 := by
        intro id2 hid2
        have hne2 : id2 ≠ id := fun hc => hidr (hc ▸ hid2)
        rw [removeIdMappingF_reverse_other st e i id id2 hne2]
        exact hrev id2 (List.mem_cons_of_mem id hid2)
      obtain ⟨ihc1, ihc2⟩ := ih (removeIdMappingF st e i id) e i hndr hrn hinv' hrev'
      refine ⟨?_, ?_⟩
      · simp only [List.foldl_cons]
        exact ihc1
      · intro id2 hid2
        rcases List.mem_cons.mp hid2 with hid2 | hid2
        · subst hid2
          have htr := removeIdMappings_fold_reverse_other rest
            (removeIdMappingF st e i id2) e i id2 hidr
          simp only [List.foldl_cons]
          rw [htr]
          exact hrevp
        · simp only [List.foldl_cons]
          exact ihc2 id2 hid2

/-- **C7**: untracking the last listener of a tracked entity runs every
registered cleanup action and deletes the tracked state, leaving no entry for
the entity; detaching the sole active component of an entity (each of whose
identifier buckets holds exactly that instance, held once by the matching
reverse bucket) removes the entity's entries from both the active and the
inherited maps, and leaves no empty inherited bucket and no reverse bucket
that is empty or still holds the instance. -/
theorem c7_leak_freedom (insts : List (Nat × InstanceTracker)) (et lid : Nat)
    (reg : Registry) (st : State) (e c i : Nat) (info : ComponentInfo) :
    (∀ tr, lookupA insts et = some tr →
      (tr.listeners.erase lid).isEmpty = true →
      untrackInstance insts et lid = (eraseA insts et, tr.cleanup) ∧
      lookupA (untrackInstance insts et lid).1 et = none) ∧
    (lookupA st.active e = some [(c, i)] →
     lookupA reg c = some info →
     (idMappings info).Nodup →
     (∃ m, lookupA st.inherited e = some m ∧
       (m.map Prod.fst).Perm (idMappings info) ∧ ∀ p ∈ m, p.2 = [i]) →
     (∀ id ∈ idMappings info, ∃ rb, lookupA st.reverseMapping id = some rb ∧
       rb.count i = 1) →
     lookupA (removeComponentF reg st e c).active e = none ∧
     lookupA (removeComponentF reg st e c).inherited e = none ∧
     (∀ id ∈ idMappings info,
       lookupA (removeComponentF reg st e c).reverseMapping id = none ∨
       ∃ rb, lookupA (removeComponentF reg st e c).reverseMapping id = some rb ∧
         rb ≠ [] ∧ i ∉ rb)) := by
  constructor
  · intro tr htr hemp
    have hred : untrackInstance insts et lid = (eraseA insts et, tr.cleanup) := by
      unfold untrackInstance
      rw [htr]
      simp only [hemp, if_true]
    refine ⟨hred, ?_⟩
    rw [hred]
    exact lookupA_eraseA_self insts et
  · intro hact hregc hnodup hinv hrev
    have hlk : lookupA [(c, i)] c = some i := by simp [lookupA]
    have hacts : eraseA [(c, i)] c = [] := by simp [eraseA]
    have hred : removeComponentF reg st e c =
        { ((idMappings info).foldl (fun s id => removeIdMappingF s e i id)
            { st with active := insertA st.active e [] }) with
          active := (eraseA ((idMappings info).foldl
            (fun s id => removeIdMappingF s e i id)
            { st with active := insertA st.active e [] }).active e) } := by
      simp only [removeComponentF, hact, hlk, hacts, hregc, List.isEmpty_nil,
        if_true]
    have hinv' : ∃ m, lookupA ({ st with active := (insertA st.active e []) } : State).inherited e = some m ∧ (m.map Prod.fst).Perm (idMappings info) ∧ ∀ p ∈ m, p.2 = [i] := hinv
    have hrev' : ∀ id ∈ idMappings info, ∃ rb, lookupA ({ st with active := (insertA st.active e []) } : State).reverseMapping id = some rb ∧ rb.count i = 1 := hrev
    obtain ⟨hc1, hc2⟩ := removeIdMappings_fold_main (idMappings info)
      { st with active := insertA st.active e [] } e i hnodup
      (by simp [idMappings]) hinv' hrev'
    refine ⟨?_, ?_, ?_⟩
    · rw [hred]
      exact lookupA_eraseA_self _ e
    · rw [hred]
      exact hc1
    · intro id hid
      rw [hred]
      exact hc2 id hid

/-- Tracked entity 0 with one listener 4 and two cleanup actions. -/
def trC7 : InstanceTracker :=
  { isQualified := true, unmetCriteria := [], listeners := [4],
    cleanup := [2, 3] }

def instsC7 : List (Nat × InstanceTracker) := [(0, trC7)]

/-- Definition `C` with one ancestor `B`. -/
def infoC7 : ComponentInfo :=
  { identifier := "C", tag := none, attributeGuards := [], defaults := [],
    instanceGuard := none, componentDependencies := [],
    ancestors := ["B"], implements := [] }

def regC7 : Registry := [(1, infoC7)]

/-- Instance 5 is the sole active component of entity 0; its buckets under
`C` are pruned entirely, while the reverse bucket of `B` also holds the
unrelated instance 9 and must survive. -/
def stC7 : State :=
  { active := [(0, [(1, 5)])], inherited := [(0, [("C", [5]), ("B", [5])])],
    reverseMapping := [("C", [5]), ("B", [5, 9])], waiters := [],
    trackedQualified := [], nextId := 6, constructedLog := [5],
    resolvedLog := [] }

theorem c7_witness :
    untrackInstance instsC7 0 4 = ([], [2, 3]) ∧
    lookupA (removeComponentF regC7 stC7 0 1).active 0 = none ∧
    lookupA (removeComponentF regC7 stC7 0 1).inherited 0 = none ∧
    (∀ id ∈ idMappings infoC7,
      lookupA (removeComponentF regC7 stC7 0 1).reverseMapping id = none ∨
      ∃ rb, lookupA (removeComponentF regC7 stC7 0 1).reverseMapping id =
          some rb ∧ rb ≠ [] ∧ 5 ∉ rb) := by
  obtain ⟨ha, hb⟩ := c7_leak_freedom instsC7 0 4 regC7 stC7 0 1 5 infoC7
  obtain ⟨hb1, hb2, hb3⟩ := hb rfl rfl (by decide)
    ⟨[("C", [5]), ("B", [5])], rfl, by decide, by decide⟩
    (by
      intro id hid
      have hcase : id = "C" ∨ id = "B" := by
        simpa [idMappings, infoC7] using hid
      rcases hcase with h | h <;> subst h
      · exact ⟨[5], rfl, by decide⟩
      · exact ⟨[5, 9], rfl, by decide⟩)
  exact ⟨(ha trC7 rfl (by decide)).1, hb1, hb2, hb3⟩

end FlameworkComponents
